import Mathlib

/-!
Shallow embedding of `src/graph.ts` (class `CloudFormationGraph`) from the
cfn-graph repository, together with proofs checking the natural-language
specification's claims against it.

Conventions used throughout:
* A JS `Map` is modelled as an insertion-ordered association list
  `List (String × α)`; `Map.set` updates in place when the key exists and
  appends otherwise, `Map.delete` filters, iteration follows list order —
  exactly the observable semantics of a JS `Map`.
* TS `GraphEdge.from`/`GraphEdge.to` become `fromId`/`toId` (`from` is a
  reserved word in Lean).
* The optional TS field `crossStack?: boolean` is modelled as a `Bool`
  where an absent field is `false`: the code only ever tests the field for
  truthiness or assigns `true` to it, so this is observationally faithful.
* The optional TS field `stackId?: string` is modelled as `Option String`;
  a JS `===` comparison between a possibly-`undefined` field and a string
  is modelled by comparison with `some _`.
* TS exceptions become `Except GraphError _`; in `graph.ts` every `throw`
  happens before any mutation of `nodes`/`edges`/`exports`, so the purely
  functional error result faithfully represents "the graph is left
  unchanged on failure".
* Property trees (`Record<string, any>` holding JSON-like data) are the
  inductive `PropValue`.
-/

/-- JSON-like property tree, as stored in `GraphNode.properties`. -/
inductive PropValue where
  | null : PropValue
  | bool (b : Bool) : PropValue
  | num (n : Int) : PropValue
  | str (s : String) : PropValue
  | arr (xs : List PropValue) : PropValue
  | obj (fields : List (String × PropValue)) : PropValue

mutual

/-- Decidable equality for `PropValue` (the automatic deriving does not
handle the nested `List`). -/
def PropValue.decEq : (a b : PropValue) → Decidable (a = b)
  | .null, .null => .isTrue rfl
  | .null, .bool _ => .isFalse (fun h => PropValue.noConfusion h)
  | .null, .num _ => .isFalse (fun h => PropValue.noConfusion h)
  | .null, .str _ => .isFalse (fun h => PropValue.noConfusion h)
  | .null, .arr _ => .isFalse (fun h => PropValue.noConfusion h)
  | .null, .obj _ => .isFalse (fun h => PropValue.noConfusion h)
  | .bool _, .null => .isFalse (fun h => PropValue.noConfusion h)
  | .bool x, .bool y =>
      if h : x = y then .isTrue (by rw [h])
      else .isFalse (fun he => h (by cases he; rfl))
  | .bool _, .num _ => .isFalse (fun h => PropValue.noConfusion h)
  | .bool _, .str _ => .isFalse (fun h => PropValue.noConfusion h)
  | .bool _, .arr _ => .isFalse (fun h => PropValue.noConfusion h)
  | .bool _, .obj _ => .isFalse (fun h => PropValue.noConfusion h)
  | .num _, .null => .isFalse (fun h => PropValue.noConfusion h)
  | .num _, .bool _ => .isFalse (fun h => PropValue.noConfusion h)
  | .num x, .num y =>
      if h : x = y then .isTrue (by rw [h])
      else .isFalse (fun he => h (by cases he; rfl))
  | .num _, .str _ => .isFalse (fun h => PropValue.noConfusion h)
  | .num _, .arr _ => .isFalse (fun h => PropValue.noConfusion h)
  | .num _, .obj _ => .isFalse (fun h => PropValue.noConfusion h)
  | .str _, .null => .isFalse (fun h => PropValue.noConfusion h)
  | .str _, .bool _ => .isFalse (fun h => PropValue.noConfusion h)
  | .str _, .num _ => .isFalse (fun h => PropValue.noConfusion h)
  | .str x, .str y =>
      if h : x = y then .isTrue (by rw [h])
      else .isFalse (fun he => h (by cases he; rfl))
  | .str _, .arr _ => .isFalse (fun h => PropValue.noConfusion h)
  | .str _, .obj _ => .isFalse (fun h => PropValue.noConfusion h)
  | .arr _, .null => .isFalse (fun h => PropValue.noConfusion h)
  | .arr _, .bool _ => .isFalse (fun h => PropValue.noConfusion h)
  | .arr _, .num _ => .isFalse (fun h => PropValue.noConfusion h)
  | .arr _, .str _ => .isFalse (fun h => PropValue.noConfusion h)
  | .arr xs, .arr ys =>
      match PropValue.decEqList xs ys with
      | .isTrue h => .isTrue (by rw [h])
      | .isFalse h => .isFalse (fun he => h (by cases he; rfl))
  | .arr _, .obj _ => .isFalse (fun h => PropValue.noConfusion h)
  | .obj _, .null => .isFalse (fun h => PropValue.noConfusion h)
  | .obj _, .bool _ => .isFalse (fun h => PropValue.noConfusion h)
  | .obj _, .num _ => .isFalse (fun h => PropValue.noConfusion h)
  | .obj _, .str _ => .isFalse (fun h => PropValue.noConfusion h)
  | .obj _, .arr _ => .isFalse (fun h => PropValue.noConfusion h)
  | .obj fs, .obj gs =>
      match PropValue.decEqFields fs gs with
      | .isTrue h => .isTrue (by rw [h])
      | .isFalse h => .isFalse (fun he => h (by cases he; rfl))

/-- Decidable equality for lists of `PropValue`. -/
def PropValue.decEqList : (xs ys : List PropValue) → Decidable (xs = ys)
  | [], [] => .isTrue rfl
  | [], _ :: _ => .isFalse (fun h => List.noConfusion h)
  | _ :: _, [] => .isFalse (fun h => List.noConfusion h)
  | x :: xs, y :: ys =>
      match PropValue.decEq x y with
      | .isTrue h1 =>
          match PropValue.decEqList xs ys with
          | .isTrue h2 => .isTrue (by rw [h1, h2])
          | .isFalse h2 => .isFalse (fun he => h2 (by cases he; rfl))
      | .isFalse h1 => .isFalse (fun he => h1 (by cases he; rfl))

/-- Decidable equality for `PropValue` object field lists. -/
def PropValue.decEqFields : (fs gs : List (String × PropValue)) → Decidable (fs = gs)
  | [], [] => .isTrue rfl
  | [], _ :: _ => .isFalse (fun h => List.noConfusion h)
  | _ :: _, [] => .isFalse (fun h => List.noConfusion h)
  | (k, v) :: fs, (l, w) :: gs =>
      if hk : k = l then
          match PropValue.decEq v w with
          | .isTrue hv =>
              match PropValue.decEqFields fs gs with
              | .isTrue ht => .isTrue (by rw [hk, hv, ht])
              | .isFalse ht => .isFalse (fun he => ht (by cases he; rfl))
          | .isFalse hv =>
              .isFalse (fun he => hv (by cases he; rfl))
      else .isFalse (fun he => hk (by cases he; rfl))

end

instance : DecidableEq PropValue := PropValue.decEq

/-- `EdgeType` enum from `types.ts`. -/
inductive EdgeType where
  | DEPENDS_ON | REFERENCE | GET_ATT | IMPORT_VALUE | EXPORT
  deriving DecidableEq

/-- `GraphNode` interface from `types.ts` (`from`/`to` renaming does not
apply here; `metadata?: Record<string, any>` is modelled as an optional
property tree). -/
structure GraphNode where
  id : String
  type : String
  properties : PropValue
  metadata : Option PropValue := none
  stackId : Option String := none
  deriving DecidableEq

/-- `GraphEdge` interface from `types.ts`; `fromId`/`toId` stand for the
TS fields `from`/`to`. -/
structure GraphEdge where
  fromId : String
  toId : String
  type : EdgeType
  crossStack : Bool := false
  deriving DecidableEq

/-- The record stored in the `exports` map:
`{ nodeId: string; outputId: string; value?: any }`. -/
structure ExportInfo where
  nodeId : String
  outputId : String
  value : Option PropValue := none
  deriving DecidableEq

/-- `NodeLocation` interface from `types.ts`. -/
structure NodeLocation where
  stackId : String
  logicalId : String
  deriving DecidableEq

/-- The error taxonomy of the `throw` sites in `graph.ts` (the TS code
throws `Error` with distinguishing messages; the spec names them
`DanglingEdge`, `NotFound`, `AlreadyExists`, `CycleDetected`). -/
inductive GraphError where
  | danglingEdge (fromId toId : String)
  | notFound (id : String)
  | alreadyExists (id : String)
  | cycleDetected
  deriving DecidableEq

namespace JsMap

/-- JS `Map.prototype.set`: replace in place if the key is present
(keeping its position), append otherwise. -/
def set (m : List (String × α)) (k : String) (v : α) : List (String × α) :=
  if m.any (fun p => p.1 == k) then
    m.map (fun p => if p.1 == k then (k, v) else p)
  else
    m ++ [(k, v)]

/-- JS `Map.prototype.get` (`undefined` becomes `none`). -/
def get (m : List (String × α)) (k : String) : Option α :=
  (m.find? (fun p => p.1 == k)).map (fun p => p.2)

/-- JS `Map.prototype.has`. -/
def has (m : List (String × α)) (k : String) : Bool :=
  m.any (fun p => p.1 == k)

/-- JS `Map.prototype.delete` (dropping every binding of the key;
bindings are unique anyway). -/
def delete (m : List (String × α)) (k : String) : List (String × α) :=
  m.filter (fun p => p.1 != k)

end JsMap

/-- The state of a `CloudFormationGraph` object: its three private
fields. -/
structure CloudFormationGraph where
  nodes : List (String × GraphNode) := []
  edges : List GraphEdge := []
  exports : List (String × ExportInfo) := []
  deriving DecidableEq

namespace CloudFormationGraph

/-- `addNode(node)`: `this.nodes.set(node.id, node)`. -/
def addNode (g : CloudFormationGraph) (node : GraphNode) : CloudFormationGraph :=
  { g with nodes := JsMap.set g.nodes node.id node }

/-- `removeNode(id)`: delete the node, filter out incident edges, delete
export registrations whose `nodeId` is the removed id. -/
def removeNode (g : CloudFormationGraph) (id : String) : CloudFormationGraph :=
  { nodes := JsMap.delete g.nodes id
    edges := g.edges.filter (fun edge => edge.fromId != id && edge.toId != id)
    exports := g.exports.filter (fun p => p.2.nodeId != id) }

/-- `getNode(id)`. -/
def getNode (g : CloudFormationGraph) (id : String) : Option GraphNode :=
  JsMap.get g.nodes id

/-- `addEdge(edge)`: throws (here: `Except.error`) when either endpoint is
absent, otherwise pushes the edge unmodified. -/
def addEdge (g : CloudFormationGraph) (edge : GraphEdge) :
    Except GraphError CloudFormationGraph :=
  if !(JsMap.has g.nodes edge.fromId) || !(JsMap.has g.nodes edge.toId) then
    .error (.danglingEdge edge.fromId edge.toId)
  else
    .ok { g with edges := g.edges ++ [edge] }

/-- `getDependencies(nodeId)`: targets of edges leaving the node. -/
def getDependencies (g : CloudFormationGraph) (nodeId : String) : List String :=
  (g.edges.filter (fun edge => edge.fromId == nodeId)).map (fun edge => edge.toId)

/-- `getQualifiedId(stackId, logicalId)`: the template string
`stackId + "." + logicalId`. -/
def getQualifiedId (stackId logicalId : String) : String :=
  stackId ++ "." ++ logicalId

/-- `getLogicalId(qualifiedId)`: split on `'.'`; when more than one part,
re-join everything after the first with `'.'`. -/
def getLogicalId (qualifiedId : String) : String :=
  let parts := qualifiedId.toList.splitOn '.'
  if parts.length > 1 then
    String.mk (List.intercalate ['.'] (parts.drop 1))
  else qualifiedId

/-- `registerExport(exportName, nodeId, outputId?, value?)`: an upsert into
the `exports` map; a missing (or falsy, i.e. empty) `outputId` defaults to
`getLogicalId(nodeId)`. -/
def registerExport (g : CloudFormationGraph) (exportName nodeId : String)
    (outputId : Option String := none) (value : Option PropValue := none) :
    CloudFormationGraph :=
  let out := match outputId with
    | some s => if s == "" then getLogicalId nodeId else s
    | none => getLogicalId nodeId
  { g with exports := JsMap.set g.exports exportName ⟨nodeId, out, value⟩ }

/-- `opposite()`: same `nodes` map, every edge's endpoints swapped (the
object spread keeps `type` and `crossStack`), exports copied over entry by
entry in order. -/
def opposite (g : CloudFormationGraph) : CloudFormationGraph :=
  { nodes := g.nodes
    edges := g.edges.map (fun edge => { edge with fromId := edge.toId, toId := edge.fromId })
    exports := g.exports }

end CloudFormationGraph

mutual

/-- `updateReferencesInProperties(obj, oldLogicalId, newLogicalId)`:
primitives returned as they are; arrays mapped recursively; an object whose
`Ref` field equals the old id becomes the single-field object
`{ Ref: newLogicalId }`; an object whose `Fn::GetAtt` field is an array
headed by the old id becomes the single-field object with the head
replaced; any other object is rebuilt field by field recursively.  (A
non-array or falsy `Fn::GetAtt` value falls through to the recursive case
exactly as in the source.) -/
def updateReferencesInProperties : PropValue → String → String → PropValue
  | .arr xs, oldL, newL => .arr (updateReferencesInList xs oldL newL)
  | .obj fields, oldL, newL =>
      if JsMap.get fields "Ref" = some (.str oldL) then
        .obj [("Ref", .str newL)]
      else
        match JsMap.get fields "Fn::GetAtt" with
        | some (.arr (.str h :: rest)) =>
            if h = oldL then .obj [("Fn::GetAtt", .arr (.str newL :: rest))]
            else .obj (updateReferencesInFields fields oldL newL)
        | _ => .obj (updateReferencesInFields fields oldL newL)
  | v, _, _ => v

/-- Pointwise `updateReferencesInProperties` over an array. -/
def updateReferencesInList : List PropValue → String → String → List PropValue
  | [], _, _ => []
  | x :: xs, oldL, newL =>
      updateReferencesInProperties x oldL newL :: updateReferencesInList xs oldL newL

/-- Pointwise `updateReferencesInProperties` over object fields. -/
def updateReferencesInFields :
    List (String × PropValue) → String → String → List (String × PropValue)
  | [], _, _ => []
  | (k, v) :: fs, oldL, newL =>
      (k, updateReferencesInProperties v oldL newL) :: updateReferencesInFields fs oldL newL

end

namespace CloudFormationGraph

/-- JS template-literal rendering of the possibly-`undefined` `stackId`
(`undefined` prints as the string `undefined`). -/
def stackIdString : Option String → String
  | some s => s
  | none => "undefined"

/-- One entry of `convertReferencesToImports`' loop over `edgesToConvert`
(only `targetNode` of each `{ edge, targetNode }` pair is consumed by the
source, so only the target nodes are threaded through): look for an
existing export registration whose source is the target node; the found
name is kept in a string variable whose truthiness is then tested, so a
found empty name counts as not found; if none, register a synthesized
export. -/
def convertOneReference (ex : List (String × ExportInfo)) (targetNode : GraphNode) :
    List (String × ExportInfo) :=
  let materialize : List (String × ExportInfo) :=
    let targetLogicalId := getLogicalId targetNode.id
    let exportName := stackIdString targetNode.stackId ++ "-" ++ targetLogicalId
    JsMap.set ex exportName
      ⟨targetNode.id, targetLogicalId, some (.obj [("Ref", .str targetLogicalId)])⟩
  match ex.find? (fun p => p.2.nodeId == targetNode.id) with
  | some (name, _) => if name == "" then materialize else ex
  | none => materialize

/-- `convertReferencesToImports(movedNodeId, edgesToConvert)`: the loop of
`convertOneReference` over the converted edges' target nodes, acting on
the `exports` map.  (The `movedNodeId` parameter is unused in the source
body and kept here for fidelity.) -/
def convertReferencesToImports (_movedNodeId : String)
    (exports : List (String × ExportInfo)) (edgesToConvert : List GraphNode) :
    List (String × ExportInfo) :=
  edgesToConvert.foldl convertOneReference exports

/-- The body of `moveNode`'s edge-update loop for a single edge: rewrite
endpoints equal to the old id, and—when the move crosses stacks and the
other endpoint (looked up in the *pre-move* node map) is outside the
destination stack—drop a `DEPENDS_ON` edge, convert a `REFERENCE`/`GET_ATT`
edge to `IMPORT_VALUE`, and set `crossStack`.  Returns the kept updated
edge (`none` when `shouldKeepEdge` ended up false) together with the target
nodes appended to `edgesToConvert` by this iteration, in push order. -/
def processEdge (nodes : List (String × GraphNode)) (currentId newQualifiedId : String)
    (isMovingAcrossStacks : Bool) (toStackId : String) (movedNode : GraphNode)
    (edge : GraphEdge) : Option GraphEdge × List GraphNode :=
  let st0 : GraphEdge × Bool × List GraphNode := (edge, true, [])
  let st1 : GraphEdge × Bool × List GraphNode :=
    if edge.fromId == currentId then
      let u := { st0.1 with fromId := newQualifiedId }
      match JsMap.get nodes edge.toId with
      | some toNode =>
          if isMovingAcrossStacks && toNode.stackId != some toStackId then
            if edge.type = .DEPENDS_ON then
              ({ u with crossStack := true }, false, st0.2.2)
            else if edge.type = .REFERENCE ∨ edge.type = .GET_ATT then
              ({ u with type := .IMPORT_VALUE, crossStack := true }, st0.2.1,
                st0.2.2 ++ [toNode])
            else ({ u with crossStack := true }, st0.2.1, st0.2.2)
          else (u, st0.2.1, st0.2.2)
      | none => (u, st0.2.1, st0.2.2)
    else st0
  let st2 : GraphEdge × Bool × List GraphNode :=
    if edge.toId == currentId then
      let u := { st1.1 with toId := newQualifiedId }
      match JsMap.get nodes edge.fromId with
      | some fromNode =>
          if isMovingAcrossStacks && fromNode.stackId != some toStackId then
            if edge.type = .DEPENDS_ON then
              ({ u with crossStack := true }, false, st1.2.2)
            else if edge.type = .REFERENCE ∨ edge.type = .GET_ATT then
              ({ u with type := .IMPORT_VALUE, crossStack := true }, st1.2.1,
                st1.2.2 ++ [movedNode])
            else ({ u with crossStack := true }, st1.2.1, st1.2.2)
          else (u, st1.2.1, st1.2.2)
      | none => (u, st1.2.1, st1.2.2)
    else st1
  (if st2.2.1 then some st2.1 else none, st2.2.2)

/-- The committed state of a successful, non-no-op `moveNode(from, to)`
call (everything after the precondition checks in the source: edge
rewriting, in-stack reference renaming, node re-keying, export source
update, and the cross-stack export-materialization pass), split out of
`moveNode` so the precondition case split stays readable. -/
def moveNodeCommit (g : CloudFormationGraph) (frm dst : NodeLocation)
    (node : GraphNode) : CloudFormationGraph :=
  let currentId := getQualifiedId frm.stackId frm.logicalId
  let newQualifiedId := getQualifiedId dst.stackId dst.logicalId
  let isMovingAcrossStacks := frm.stackId != dst.stackId
  let oldLogicalId := frm.logicalId
  let newLogicalId := dst.logicalId
  let movedNode : GraphNode :=
    { node with id := newQualifiedId, stackId := some dst.stackId }
  let processed := g.edges.map
    (processEdge g.nodes currentId newQualifiedId isMovingAcrossStacks
      dst.stackId movedNode)
  let updatedEdges := processed.filterMap (fun p => p.1)
  let edgesToConvert := (processed.map (fun p => p.2)).flatten
  let nodes1 :=
    if !isMovingAcrossStacks && oldLogicalId != newLogicalId then
      g.nodes.map (fun p =>
        if p.1 != currentId && p.2.stackId == some frm.stackId then
          (p.1, { p.2 with properties :=
            updateReferencesInProperties p.2.properties oldLogicalId newLogicalId })
        else p)
    else g.nodes
  let exportsToUpdate := g.exports.filter (fun p => p.2.nodeId == currentId)
  let nodes2 := JsMap.set (JsMap.delete nodes1 currentId) newQualifiedId movedNode
  let exports1 := exportsToUpdate.foldl
    (fun ex p => JsMap.set ex p.1 { p.2 with nodeId := newQualifiedId }) g.exports
  let exports2 :=
    if isMovingAcrossStacks && !edgesToConvert.isEmpty then
      convertReferencesToImports newQualifiedId exports1 edgesToConvert
    else exports1
  { nodes := nodes2, edges := updatedEdges, exports := exports2 }

/-- `moveNode(from, to)` (the TS parameters `from` and `to` are `frm` and
`dst` here, both being reserved words in Lean): the precondition checks of
the source, an early `return` when the qualified ids coincide, and
otherwise the committed state `moveNodeCommit`. -/
def moveNode (g : CloudFormationGraph) (frm dst : NodeLocation) :
    Except GraphError CloudFormationGraph :=
  let currentId := getQualifiedId frm.stackId frm.logicalId
  match JsMap.get g.nodes currentId with
  | none => .error (.notFound currentId)
  | some node =>
    let newQualifiedId := getQualifiedId dst.stackId dst.logicalId
    if newQualifiedId != currentId && JsMap.has g.nodes newQualifiedId then
      .error (.alreadyExists newQualifiedId)
    else if currentId == newQualifiedId then
      .ok g
    else
      .ok (moveNodeCommit g frm dst node)

/-- The two failures of `getAllNodesSorted`'s recursive `visit`: the real
`CycleDetected` throw, and exhaustion of the fuel that makes the recursion
structurally terminating in this embedding (shown below to be unreachable
for the fuel `getAllNodesSorted` supplies, so it models nothing from the
source). -/
inductive SortOutcome where
  | cycleDetected
  | outOfFuel
  deriving DecidableEq

/-- State of the depth-first traversal: the `visited` and `temp` sets (as
lists of their elements in insertion order) and the `result` array. -/
structure SortState where
  visited : List String
  temp : List String
  result : List String
  deriving DecidableEq

/-- The recursive `visit(nodeId)` of `getAllNodesSorted`: an in-progress
node signals a cycle; a finished node returns; otherwise mark in-progress,
visit all dependencies (the `for (const dep of deps) visit(dep)` loop is
the monadic fold, every iteration at the next recursion depth), then move
the node to `visited` and emit it. -/
def visit (g : CloudFormationGraph) : Nat → SortState → String →
    Except SortOutcome SortState
  | 0, _, _ => .error .outOfFuel
  | fuel + 1, st, nodeId =>
    if st.temp.contains nodeId then .error .cycleDetected
    else if st.visited.contains nodeId then .ok st
    else
      match (g.getDependencies nodeId).foldlM (fun st' dep => visit g fuel st' dep)
          { st with temp := st.temp ++ [nodeId] } with
      | .error e => .error e
      | .ok st2 =>
          .ok { visited := st2.visited ++ [nodeId]
                temp := st2.temp.filter (fun x => x != nodeId)
                result := st2.result ++ [nodeId] }

/-- The dependency loop of `visit`, as its own definition for the proofs
below: `visit` at the given depth folded over the list. -/
def visitList (g : CloudFormationGraph) (fuel : Nat) (st : SortState)
    (deps : List String) : Except SortOutcome SortState :=
  deps.foldlM (fun st' dep => visit g fuel st' dep) st

/-- Every id the traversal can ever touch: the node keys (outer loop) and
the edge targets (recursive calls through `getDependencies`). -/
def sortUniverse (g : CloudFormationGraph) : List String :=
  g.nodes.map (fun p => p.1) ++ g.edges.map (fun e => e.toId)

/-- Fuel sufficient for the traversal (recursion depth is bounded by the
strictly growing `temp` set, which stays inside `sortUniverse`). -/
def sortFuel (g : CloudFormationGraph) : Nat :=
  (sortUniverse g).length + 1

/-- `getAllNodesSorted()` restricted to the id list it builds in `result`
order. -/
def getAllNodesSortedIds (g : CloudFormationGraph) : Except SortOutcome (List String) :=
  let step := fun (st : SortState) (nodeId : String) =>
    if st.visited.contains nodeId then Except.ok st
    else visit g (sortFuel g) st nodeId
  match (g.nodes.map (fun p => p.1)).foldlM step ⟨[], [], []⟩ with
  | .error e => .error e
  | .ok st => .ok st.result

/-- `getAllNodesSorted()`: the sorted ids resolved through the node map
(the TS `this.nodes.get(id)!` produces `undefined`—here `none`—should an
id not resolve, which cannot happen for graphs whose edges all point at
existing nodes). -/
def getAllNodesSorted (g : CloudFormationGraph) :
    Except SortOutcome (List (Option GraphNode)) :=
  match getAllNodesSortedIds g with
  | .error e => .error e
  | .ok ids => .ok (ids.map (fun id => JsMap.get g.nodes id))

end CloudFormationGraph

namespace JsMap

theorem get_cons (p : String × α) (m : List (String × α)) (k : String) :
    get (p :: m) k = if p.1 == k then some p.2 else get m k := by
  by_cases h : p.1 == k <;> simp [get, List.find?, h]

theorem get_nil (k : String) : get ([] : List (String × α)) k = none := rfl

theorem get_append (m l : List (String × α)) (k : String) :
    get (m ++ l) k = ((get m k).rec (get l k) (fun v => some v) : Option α) := by
  induction m with
  | nil => rfl
  | cons p m ih =>
      by_cases hp : p.1 == k <;> simp [get_cons, hp, ih]

theorem get_eq_none_of_not_any {m : List (String × α)} {k : String}
    (h : m.any (fun p => p.1 == k) = false) : get m k = none := by
  induction m with
  | nil => rfl
  | cons p m ih =>
      simp only [List.any_cons, Bool.or_eq_false_iff] at h
      rw [get_cons, if_neg (by simp [h.1]), ih h.2]

theorem get_map_set_self (k : String) (v : α) :
    ∀ (m : List (String × α)), m.any (fun p => p.1 == k) = true →
      get (m.map (fun p => if p.1 == k then (k, v) else p)) k = some v := by
  intro m
  induction m with
  | nil => intro h; exact Bool.noConfusion h
  | cons p m ih =>
      intro h
      by_cases hp : (p.1 == k) = true
      · rw [List.map_cons, get_cons, if_pos hp, if_pos (show (((k, v) : String × α).1 == k) = true by simp)]
      · simp only [List.any_cons, hp, Bool.false_or] at h
        rw [List.map_cons, get_cons, if_neg hp, if_neg hp]
        exact ih h

theorem get_set_self (m : List (String × α)) (k : String) (v : α) :
    get (set m k v) k = some v := by
  unfold set
  split
  case isTrue h => exact get_map_set_self k v m h
  case isFalse h =>
    rw [Bool.not_eq_true] at h
    rw [get_append, get_eq_none_of_not_any h]
    simp [get_cons]

theorem get_set_ne (m : List (String × α)) (k k' : String) (v : α)
    (hne : k' ≠ k) : get (set m k v) k' = get m k' := by
  have hkk : (k == k') = false := by
    rw [beq_eq_false_iff_ne]
    exact fun he => hne he.symm
  unfold set
  split
  case isTrue h =>
    clear h
    induction m with
    | nil => rfl
    | cons p m ih =>
        by_cases hp : (p.1 == k) = true
        · have hpk : p.1 = k := by simpa using hp
          rw [List.map_cons, get_cons, get_cons, if_pos hp]
          rw [if_neg (show ¬ ((((k, v) : String × α).1 == k') = true) by simp [hkk])]
          rw [if_neg (show ¬ ((p.1 == k') = true) by rw [hpk]; simp [hkk])]
          exact ih
        · rw [List.map_cons, get_cons, get_cons, if_neg hp]
          by_cases hp' : (p.1 == k') = true
          · rw [if_pos hp', if_pos hp']
          · rw [if_neg hp', if_neg hp']
            exact ih
  case isFalse h =>
    rw [get_append]
    rw [get_cons, get_nil, if_neg (by simp [hkk])]
    cases get m k' <;> rfl

theorem get_delete (m : List (String × α)) (id k : String) :
    get (delete m id) k = if k = id then none else get m k := by
  induction m with
  | nil => simp [delete, get_nil]
  | cons p m ih =>
      simp only [delete, List.filter_cons] at ih ⊢
      by_cases hp : (p.1 != id) = true
      · have hpid : p.1 ≠ id := by simpa using hp
        simp only [hp, if_true, get_cons]
        by_cases hpk : (p.1 == k) = true
        · have hk : ¬ (k = id) := fun he => hpid (by rw [← he]; simpa using hpk)
          simp [hpk, hk, ih]
        · simp [hpk, ih]
      · have hpid : p.1 = id := by
          have := hp
          rw [Bool.not_eq_true, bne_eq_false_iff_eq] at this
          exact this
        simp only [Bool.not_eq_true] at hp
        simp only [hp, Bool.false_eq_true, ite_false]
        rw [ih]
        by_cases hk : k = id
        · simp [hk]
        · have hpk : (p.1 == k) = false := by
            rw [beq_eq_false_iff_ne]
            exact fun he => hk (by rw [← he, hpid])
          simp [hk, get_cons, hpk]

end JsMap

namespace JsMap

theorem set_keys_of_has (m : List (String × α)) (k : String) (v : α)
    (h : has m k = true) : (set m k v).map (fun p => p.1) = m.map (fun p => p.1) := by
  unfold set
  rw [if_pos (show (m.any fun p => p.1 == k) = true from h)]
  clear h
  induction m with
  | nil => rfl
  | cons p m ih =>
      by_cases hp : (p.1 == k) = true
      · have hpk : p.1 = k := by simpa using hp
        rw [List.map_cons, List.map_cons, if_pos hp, ih]
        rw [List.map_cons, hpk]
      · rw [List.map_cons, List.map_cons, if_neg hp, ih, List.map_cons]

end JsMap

/-- Claim C10: `addNode` never fails (it is a total function); called with
a node whose id is already stored it silently replaces the node under
that id in place (the key list is unchanged, so ids stay unique by
overwrite, not rejection); edges and export registrations are untouched;
other ids still resolve as before. -/
theorem claim_C10_addNode_overwrites (g : CloudFormationGraph) (n : GraphNode) :
    (g.addNode n).edges = g.edges ∧
    (g.addNode n).exports = g.exports ∧
    (g.addNode n).getNode n.id = some n ∧
    (∀ k, k ≠ n.id → (g.addNode n).getNode k = g.getNode k) ∧
    (JsMap.has g.nodes n.id = true →
      (g.addNode n).nodes.map (fun p => p.1) = g.nodes.map (fun p => p.1)) := by
  refine ⟨rfl, rfl, JsMap.get_set_self .., ?_, ?_⟩
  · intro k hk
    exact JsMap.get_set_ne g.nodes n.id k n hk
  · intro h
    exact JsMap.set_keys_of_has g.nodes n.id n h

def c10Stored : GraphNode := { id := "s.A", type := "T", properties := .null }

def c10Replacement : GraphNode := { id := "s.A", type := "T2", properties := .null }

def c10Graph : CloudFormationGraph := { nodes := [("s.A", c10Stored)] }

/-- Witness for C10 at a concrete graph whose id `s.A` is already taken. -/
theorem claim_C10_witness :
    (c10Graph.addNode c10Replacement).getNode "s.A" = some c10Replacement ∧
    (c10Graph.addNode c10Replacement).getNode "s.B" = c10Graph.getNode "s.B" ∧
    (c10Graph.addNode c10Replacement).nodes.map (fun p => p.1) =
      c10Graph.nodes.map (fun p => p.1) :=
  ⟨(claim_C10_addNode_overwrites c10Graph c10Replacement).2.2.1,
   (claim_C10_addNode_overwrites c10Graph c10Replacement).2.2.2.1 "s.B" (by decide),
   (claim_C10_addNode_overwrites c10Graph c10Replacement).2.2.2.2 (by decide)⟩

/-- Claim C8: `removeNode(n)` removes the node under that id, every edge
whose source or target is that id, and every export registration sourced
from that id, and leaves every other node, edge and export registration in
place. -/
theorem claim_C8_removeNode_cascades (g : CloudFormationGraph) (id : String) :
    (∀ k, (g.removeNode id).getNode k = if k = id then none else g.getNode k) ∧
    (∀ e : GraphEdge, e ∈ (g.removeNode id).edges ↔
        e ∈ g.edges ∧ e.fromId ≠ id ∧ e.toId ≠ id) ∧
    (∀ p : String × ExportInfo, p ∈ (g.removeNode id).exports ↔
        p ∈ g.exports ∧ p.2.nodeId ≠ id) := by
  refine ⟨?_, ?_, ?_⟩
  · intro k
    exact JsMap.get_delete g.nodes id k
  · intro e
    simp [CloudFormationGraph.removeNode, List.mem_filter, and_assoc]
  · intro p
    simp [CloudFormationGraph.removeNode, List.mem_filter]

/-- Claim C9: `opposite()` shares the node map with the original (modelled
as equality of the maps), swaps every edge's source and target while
keeping its kind and cross-stack flag, and copies the export registrations
over verbatim; applying it twice restores the original edge list, hence in
particular the original edge multiset. -/
theorem claim_C9_opposite_involution (g : CloudFormationGraph) :
    (g.opposite).nodes = g.nodes ∧
    (g.opposite).exports = g.exports ∧
    (g.opposite).edges = g.edges.map (fun e =>
      { fromId := e.toId, toId := e.fromId, type := e.type, crossStack := e.crossStack }) ∧
    (g.opposite.opposite).edges = g.edges := by
  refine ⟨rfl, rfl, rfl, ?_⟩
  show (g.edges.map _).map _ = g.edges
  rw [List.map_map]
  exact List.map_id' g.edges

/-- Decidable equality for `Except` results, used to evaluate concrete
runs of the graph operations. -/
instance {ε α : Type} [DecidableEq ε] [DecidableEq α] : DecidableEq (Except ε α) :=
  fun a b =>
    match a, b with
    | .ok x, .ok y =>
        if h : x = y then .isTrue (by rw [h])
        else .isFalse (fun he => h (by cases he; rfl))
    | .error x, .error y =>
        if h : x = y then .isTrue (by rw [h])
        else .isFalse (fun he => h (by cases he; rfl))
    | .ok _, .error _ => .isFalse (fun he => Except.noConfusion he)
    | .error _, .ok _ => .isFalse (fun he => Except.noConfusion he)

/-- Modelled from the spec's invariant list, for comparison with the code
(this definition follows the spec's words, not the source): an
`IMPORTED_VALUE` edge is cross-group by construction, and a
non-`IMPORTED_VALUE` edge's cross-group flag is true iff its endpoints'
owning groups differ. -/
def edgeFlagInvariant (g : CloudFormationGraph) : Prop :=
  ∀ e ∈ g.edges,
    (e.type = EdgeType.IMPORT_VALUE → e.crossStack = true) ∧
    (e.type ≠ EdgeType.IMPORT_VALUE →
      (e.crossStack = true ↔
        (g.getNode e.fromId).map GraphNode.stackId ≠ (g.getNode e.toId).map GraphNode.stackId))

instance (g : CloudFormationGraph) : Decidable (edgeFlagInvariant g) := by
  unfold edgeFlagInvariant
  infer_instance

def c6NodeA : GraphNode := { id := "s1.A", type := "T", properties := .null, stackId := some "s1" }

def c6NodeB : GraphNode := { id := "s2.B", type := "T", properties := .null, stackId := some "s2" }

def c6Edge : GraphEdge :=
  { fromId := "s1.A", toId := "s2.B", type := .REFERENCE, crossStack := false }

def c6Bad : CloudFormationGraph :=
  { nodes := [("s1.A", c6NodeA), ("s2.B", c6NodeB)], edges := [c6Edge], exports := [] }

/-- Counterexample to claim C6: the state reached by `addNode`, `addNode`,
`addEdge` with a `REFERENCE` edge between nodes of different stacks whose
`crossStack` flag is false is accepted by `addEdge` unvalidated, and it
violates the spec's flag invariant. -/
theorem claim_C6_counterexample :
    (CloudFormationGraph.addNode (CloudFormationGraph.addNode {} c6NodeA) c6NodeB).addEdge
        c6Edge = .ok c6Bad ∧
    ¬ edgeFlagInvariant c6Bad := by
  constructor
  · decide
  · decide

/-- Claim C6 (amended): the operations do not maintain the flag invariant;
`addEdge` checks only that both endpoints exist and then appends the
caller's edge verbatim — kind and cross-stack flag are stored exactly as
supplied, with no re-validation against the endpoints' stacks — so a
reachable state can hold a non-`IMPORTED_VALUE` edge whose flag disagrees
with its endpoints' stacks. -/
theorem claim_C6_amended_addEdge_verbatim (g g' : CloudFormationGraph) (e : GraphEdge)
    (h : g.addEdge e = .ok g') :
    g'.nodes = g.nodes ∧ g'.exports = g.exports ∧ g'.edges = g.edges ++ [e] := by
  unfold CloudFormationGraph.addEdge at h
  split at h
  · exact Except.noConfusion h
  · cases h
    exact ⟨rfl, rfl, rfl⟩

def c6Start : CloudFormationGraph :=
  CloudFormationGraph.addNode (CloudFormationGraph.addNode {} c6NodeA) c6NodeB

/-- Witness for the amended C6 at the concrete two-node graph. -/
theorem claim_C6_witness :
    c6Bad.nodes = c6Start.nodes ∧ c6Bad.exports = c6Start.exports ∧
      c6Bad.edges = c6Start.edges ++ [c6Edge] :=
  claim_C6_amended_addEdge_verbatim c6Start c6Bad c6Edge (by decide)

namespace JsMap

theorem get_eq_none_iff (m : List (String × α)) (k : String) :
    get m k = none ↔ has m k = false := by
  induction m with
  | nil => simp [get_nil, has]
  | cons p m ih =>
      rw [get_cons]
      by_cases hp : (p.1 == k) = true
      · simp [hp, has]
      · simp only [hp, Bool.false_eq_true, ite_false]
        rw [ih]
        simp [has, hp]

end JsMap


namespace CloudFormationGraph

theorem moveNode_of_get_none {g : CloudFormationGraph} {frm dst : NodeLocation}
    (h : JsMap.get g.nodes (getQualifiedId frm.stackId frm.logicalId) = none) :
    g.moveNode frm dst =
      .error (.notFound (getQualifiedId frm.stackId frm.logicalId)) := by
  simp only [moveNode, h]

theorem moveNode_of_get_some {g : CloudFormationGraph} {frm dst : NodeLocation}
    {node : GraphNode}
    (h : JsMap.get g.nodes (getQualifiedId frm.stackId frm.logicalId) = some node) :
    g.moveNode frm dst =
      (if (getQualifiedId dst.stackId dst.logicalId !=
              getQualifiedId frm.stackId frm.logicalId &&
            JsMap.has g.nodes (getQualifiedId dst.stackId dst.logicalId)) = true then
        .error (.alreadyExists (getQualifiedId dst.stackId dst.logicalId))
      else if (getQualifiedId frm.stackId frm.logicalId ==
          getQualifiedId dst.stackId dst.logicalId) = true then
        .ok g
      else
        .ok (moveNodeCommit g frm dst node)) := by
  simp only [moveNode, h]

theorem addEdge_error_iff (g : CloudFormationGraph) (e : GraphEdge) :
    (∃ err, g.addEdge e = .error err) ↔
      g.getNode e.fromId = none ∨ g.getNode e.toId = none := by
  unfold addEdge
  rw [getNode, getNode, JsMap.get_eq_none_iff, JsMap.get_eq_none_iff]
  constructor
  · intro ⟨err, h⟩
    split at h
    case isTrue hc =>
      rw [Bool.or_eq_true, Bool.not_eq_true', Bool.not_eq_true'] at hc
      exact hc
    case isFalse hc =>
      exact Except.noConfusion h
  · intro h
    refine ⟨.danglingEdge e.fromId e.toId, ?_⟩
    rw [if_pos ?_]
    rw [Bool.or_eq_true, Bool.not_eq_true', Bool.not_eq_true']
    exact h

end CloudFormationGraph

/-- Claim C4: `moveNode` fails with `NotFound` exactly when no node sits at
the source address, fails with `AlreadyExists` exactly when the source
exists and the destination is a different, occupied address, is a
successful no-op (returning the unchanged graph) when source equals
destination, and these are its only failures; `addEdge` fails (with
`DanglingEdge`) exactly when an endpoint is absent.  In this embedding a
failing call returns only the error value — mirroring the source, where
every one of these `throw`s precedes any mutation of
`nodes`/`edges`/`exports` — so a precondition failure leaves the caller's
graph unchanged by construction. -/
theorem claim_C4_preconditions (g : CloudFormationGraph) (frm dst : NodeLocation)
    (e : GraphEdge) :
    (g.moveNode frm dst =
        .error (.notFound (CloudFormationGraph.getQualifiedId frm.stackId frm.logicalId)) ↔
      g.getNode (CloudFormationGraph.getQualifiedId frm.stackId frm.logicalId) = none) ∧
    (g.moveNode frm dst =
        .error (.alreadyExists (CloudFormationGraph.getQualifiedId dst.stackId dst.logicalId)) ↔
      (g.getNode (CloudFormationGraph.getQualifiedId frm.stackId frm.logicalId)).isSome = true ∧
        CloudFormationGraph.getQualifiedId dst.stackId dst.logicalId ≠
          CloudFormationGraph.getQualifiedId frm.stackId frm.logicalId ∧
        JsMap.has g.nodes (CloudFormationGraph.getQualifiedId dst.stackId dst.logicalId) = true) ∧
    ((g.getNode (CloudFormationGraph.getQualifiedId frm.stackId frm.logicalId)).isSome = true →
      frm = dst → g.moveNode frm dst = .ok g) ∧
    (∀ err, g.moveNode frm dst = .error err →
      err = .notFound (CloudFormationGraph.getQualifiedId frm.stackId frm.logicalId) ∨
      err = .alreadyExists (CloudFormationGraph.getQualifiedId dst.stackId dst.logicalId)) ∧
    ((∃ err, g.addEdge e = .error err) ↔
      g.getNode e.fromId = none ∨ g.getNode e.toId = none) := by
  rw [CloudFormationGraph.getNode]
  cases hget : JsMap.get g.nodes
      (CloudFormationGraph.getQualifiedId frm.stackId frm.logicalId) with
  | none =>
      have hmv := @CloudFormationGraph.moveNode_of_get_none g frm dst hget
      refine ⟨by simp [hmv], ?_, ?_, ?_, CloudFormationGraph.addEdge_error_iff g e⟩
      · rw [hmv]
        simp
      · intro h1
        exact absurd h1 (by simp)
      · intro err herr
        rw [hmv] at herr
        left
        cases herr
        rfl
  | some node =>
      have hmv := @CloudFormationGraph.moveNode_of_get_some g frm dst node hget
      by_cases hcond :
          ((CloudFormationGraph.getQualifiedId dst.stackId dst.logicalId !=
              CloudFormationGraph.getQualifiedId frm.stackId frm.logicalId) &&
            JsMap.has g.nodes
              (CloudFormationGraph.getQualifiedId dst.stackId dst.logicalId)) = true
      · rw [if_pos hcond] at hmv
        have hcond' := hcond
        rw [Bool.and_eq_true, bne_iff_ne] at hcond'
        refine ⟨by simp [hmv], ?_, ?_, ?_, CloudFormationGraph.addEdge_error_iff g e⟩
        · rw [hmv]
          simp [hcond'.1, hcond'.2]
        · intro _ hfd
          exact absurd (by rw [hfd]) hcond'.1
        · intro err herr
          rw [hmv] at herr
          right
          cases herr
          rfl
      · rw [if_neg hcond] at hmv
        refine ⟨?_, ?_, ?_, ?_, CloudFormationGraph.addEdge_error_iff g e⟩
        · rw [hmv]
          constructor
          · intro h
            split at h <;> exact absurd h (by simp)
          · intro h
            exact Option.noConfusion h
        · rw [hmv]
          constructor
          · intro h
            split at h <;> exact absurd h (by simp)
          · intro ⟨_, hne, hhas⟩
            rw [Bool.and_eq_true] at hcond
            exact absurd ⟨by simpa using hne, hhas⟩ hcond
        · intro _ hfd
          subst hfd
          rw [hmv, if_pos (by simp)]
        · intro err herr
          rw [hmv] at herr
          split at herr <;> exact Except.noConfusion herr

def c4Node : GraphNode := { id := "s1.A", type := "T", properties := .null, stackId := some "s1" }

def c4Graph : CloudFormationGraph := { nodes := [("s1.A", c4Node)] }

def c4LocA : NodeLocation := { stackId := "s1", logicalId := "A" }

def c4LocB : NodeLocation := { stackId := "s1", logicalId := "B" }

def c4Edge : GraphEdge := { fromId := "s1.X", toId := "s1.A", type := .REFERENCE }

/-- Witness for C4: the no-op success on a same-address move and the
`NotFound` failure on an absent source address, at a concrete one-node
graph. -/
theorem claim_C4_witness :
    c4Graph.moveNode c4LocA c4LocA = .ok c4Graph ∧
    c4Graph.moveNode c4LocB c4LocA = .error (.notFound "s1.B") :=
  ⟨(claim_C4_preconditions c4Graph c4LocA c4LocA c4Edge).2.2.1 (by decide) rfl,
   (claim_C4_preconditions c4Graph c4LocB c4LocA c4Edge).1.mpr (by decide)⟩

def c1Topic : GraphNode :=
  { id := "infra.Topic", type := "AWS::SNS::Topic", properties := .null,
    stackId := some "infra" }

def c1Sub : GraphNode :=
  { id := "infra.Subscription", type := "AWS::SNS::Subscription", properties := .null,
    stackId := some "infra" }

def c1Graph : CloudFormationGraph :=
  { nodes := [("infra.Topic", c1Topic), ("infra.Subscription", c1Sub)],
    edges := [{ fromId := "infra.Subscription", toId := "infra.Topic", type := .REFERENCE }] }

def c1Final : CloudFormationGraph :=
  { nodes := [("services.Subscription",
        { id := "services.Subscription", type := "AWS::SNS::Subscription",
          properties := .null, stackId := some "services" }),
      ("services.Topic",
        { id := "services.Topic", type := "AWS::SNS::Topic", properties := .null,
          stackId := some "services" })],
    edges := [{ fromId := "services.Subscription", toId := "services.Topic", type := .IMPORT_VALUE, crossStack := true }],
    exports := [("infra-Topic",
        { nodeId := "services.Topic", outputId := "Topic",
          value := some (.obj [("Ref", .str "Topic")]) })] }

set_option maxRecDepth 10000 in
/-- Counterexample to claim C1: relocating `Subscription` and then `Topic`
from group `infra` into group `services` leaves the edge between the now
co-resident endpoints as `IMPORT_VALUE` with its cross-group flag still
set (it is not converted back to a value reference), inserts no
`DEPENDS_ON` edge, and retains the export registration created by the
first relocation (merely re-pointing its source id) instead of pruning
it. -/
theorem claim_C1_counterexample :
    (c1Graph.moveNode ⟨"infra", "Subscription"⟩ ⟨"services", "Subscription"⟩).bind
      (fun g1 => g1.moveNode ⟨"infra", "Topic"⟩ ⟨"services", "Topic"⟩) = .ok c1Final ∧
    c1Final.edges = [{ fromId := "services.Subscription", toId := "services.Topic", type := .IMPORT_VALUE, crossStack := true }] ∧
    (c1Final.getNode "services.Subscription").map GraphNode.stackId =
      some (some "services") ∧
    (c1Final.getNode "services.Topic").map GraphNode.stackId = some (some "services") ∧
    (c1Final.exports.map Prod.fst = ["infra-Topic"]) ∧
    (∀ e ∈ c1Final.edges, e.type ≠ .DEPENDS_ON) := by
  refine ⟨by decide, rfl, by decide, by decide, rfl, by decide⟩

def c2Node : GraphNode :=
  { id := "infra.A", type := "T", properties := .null, stackId := some "infra" }

def c2Graph : CloudFormationGraph :=
  { nodes := [("infra.A", c2Node)],
    edges := [{ fromId := "infra.A", toId := "infra.A", type := .REFERENCE }] }

def c2Final : CloudFormationGraph :=
  { nodes := [("services.A",
        { id := "services.A", type := "T", properties := .null,
          stackId := some "services" })],
    edges := [{ fromId := "services.A", toId := "services.A", type := .IMPORT_VALUE, crossStack := true }],
    exports := [("infra-A",
        { nodeId := "infra.A", outputId := "A",
          value := some (.obj [("Ref", .str "A")]) }),
      ("services-A",
        { nodeId := "services.A", outputId := "A",
          value := some (.obj [("Ref", .str "A")]) })] }

set_option maxRecDepth 10000 in
/-- Counterexample to claim C2: relocating a node with a consistent
same-group self-referencing `REFERENCE` edge (flag false) across a group
boundary produces an edge whose two endpoints are the same relocated node
— post-move both in the destination group — yet the edge was converted to
`IMPORT_VALUE` with its cross-group flag set: the cross-group status is
computed against the pre-move stack recorded for the other endpoint, not
re-evaluated against the post-move assignment. -/
theorem claim_C2_counterexample :
    c2Graph.moveNode ⟨"infra", "A"⟩ ⟨"services", "A"⟩ = .ok c2Final ∧
    c2Final.edges = [{ fromId := "services.A", toId := "services.A", type := .IMPORT_VALUE, crossStack := true }] ∧
    (c2Final.getNode "services.A").map GraphNode.stackId = some (some "services") := by
  refine ⟨by decide, rfl, by decide⟩

/-- The other-endpoint crossing test of `moveNode`'s edge loop, as used
by the per-edge specification below: the node is looked up in the pre-move
map; a missing endpoint never counts as crossing. -/
def lookupCrossing (nodes : List (String × GraphNode)) (a : Bool) (t : String)
    (other : String) : Bool :=
  match JsMap.get nodes other with
  | some n => a && n.stackId != some t
  | none => false

def moveEdgeSpec (nodes : List (String × GraphNode)) (c nq : String) (a : Bool)
    (t : String) (e : GraphEdge) : Option GraphEdge :=
  if (e.fromId == c && lookupCrossing nodes a t e.toId) ||
      (e.toId == c && lookupCrossing nodes a t e.fromId) then
    if e.type = .DEPENDS_ON then none
    else if e.type = .REFERENCE ∨ e.type = .GET_ATT then
      some { fromId := if e.fromId == c then nq else e.fromId,
             toId := if e.toId == c then nq else e.toId,
             type := .IMPORT_VALUE, crossStack := true }
    else
      some { fromId := if e.fromId == c then nq else e.fromId,
             toId := if e.toId == c then nq else e.toId,
             type := e.type, crossStack := true }
  else
    some { fromId := if e.fromId == c then nq else e.fromId,
           toId := if e.toId == c then nq else e.toId,
           type := e.type, crossStack := e.crossStack }

theorem processEdge_fst (nodes : List (String × GraphNode)) (c nq : String)
    (a : Bool) (t : String) (m : GraphNode) (e : GraphEdge) :
    (CloudFormationGraph.processEdge nodes c nq a t m e).1 =
      moveEdgeSpec nodes c nq a t e := by
  unfold CloudFormationGraph.processEdge moveEdgeSpec
  by_cases hf : (e.fromId == c) = true <;> by_cases ht : (e.toId == c) = true
  · -- both endpoints are the old id
    cases hto : JsMap.get nodes e.toId with
    | none =>
        cases hfrom : JsMap.get nodes e.fromId with
        | none => simp [lookupCrossing, hf, ht, hto, hfrom]
        | some fromNode =>
            by_cases hc2 : (a && fromNode.stackId != some t) = true
            · by_cases hd : e.type = EdgeType.DEPENDS_ON
              · simp [lookupCrossing, hf, ht, hto, hfrom, hc2, hd]
              · by_cases hr : (e.type = EdgeType.REFERENCE ∨ e.type = EdgeType.GET_ATT)
                · simp [lookupCrossing, hf, ht, hto, hfrom, hc2, hd, hr]
                · simp [lookupCrossing, hf, ht, hto, hfrom, hc2, hd, hr]
            · simp [lookupCrossing, hf, ht, hto, hfrom, hc2]
    | some toNode =>
        cases hfrom : JsMap.get nodes e.fromId with
        | none =>
            by_cases hc1 : (a && toNode.stackId != some t) = true
            · by_cases hd : e.type = EdgeType.DEPENDS_ON
              · simp [lookupCrossing, hf, ht, hto, hfrom, hc1, hd]
              · by_cases hr : (e.type = EdgeType.REFERENCE ∨ e.type = EdgeType.GET_ATT)
                · simp [lookupCrossing, hf, ht, hto, hfrom, hc1, hd, hr]
                · simp [lookupCrossing, hf, ht, hto, hfrom, hc1, hd, hr]
            · simp [lookupCrossing, hf, ht, hto, hfrom, hc1]
        | some fromNode =>
            by_cases hc1 : (a && toNode.stackId != some t) = true <;>
            by_cases hc2 : (a && fromNode.stackId != some t) = true <;>
            by_cases hd : e.type = EdgeType.DEPENDS_ON <;>
            by_cases hr : (e.type = EdgeType.REFERENCE ∨ e.type = EdgeType.GET_ATT) <;>
            simp [lookupCrossing, hf, ht, hto, hfrom, hc1, hc2, hd, hr]
  · -- only fromId matches
    cases hto : JsMap.get nodes e.toId with
    | none => simp [lookupCrossing, hf, ht, hto]
    | some toNode =>
        by_cases hc1 : (a && toNode.stackId != some t) = true
        · by_cases hd : e.type = EdgeType.DEPENDS_ON
          · simp [lookupCrossing, hf, ht, hto, hc1, hd]
          · by_cases hr : (e.type = EdgeType.REFERENCE ∨ e.type = EdgeType.GET_ATT)
            · simp [lookupCrossing, hf, ht, hto, hc1, hd, hr]
            · simp [lookupCrossing, hf, ht, hto, hc1, hd, hr]
        · simp [lookupCrossing, hf, ht, hto, hc1]
  · -- only toId matches
    cases hfrom : JsMap.get nodes e.fromId with
    | none => simp [lookupCrossing, hf, ht, hfrom]
    | some fromNode =>
        by_cases hc2 : (a && fromNode.stackId != some t) = true
        · by_cases hd : e.type = EdgeType.DEPENDS_ON
          · simp [lookupCrossing, hf, ht, hfrom, hc2, hd]
          · by_cases hr : (e.type = EdgeType.REFERENCE ∨ e.type = EdgeType.GET_ATT)
            · simp [lookupCrossing, hf, ht, hfrom, hc2, hd, hr]
            · simp [lookupCrossing, hf, ht, hfrom, hc2, hd, hr]
        · simp [lookupCrossing, hf, ht, hfrom, hc2]
  · -- neither matches
    simp [lookupCrossing, hf, ht]

namespace JsMap

theorem get_set_isSome_mono (m : List (String × α)) (k name : String) (v : α)
    (h : (get m name).isSome = true) : (get (set m k v) name).isSome = true := by
  by_cases hn : name = k
  · subst hn
    rw [get_set_self]
    rfl
  · rw [get_set_ne m k name v hn]
    exact h

end JsMap

theorem convertOneReference_get_mono (ex : List (String × ExportInfo))
    (tn : GraphNode) (name : String)
    (h : (JsMap.get ex name).isSome = true) :
    (JsMap.get (CloudFormationGraph.convertOneReference ex tn) name).isSome = true := by
  unfold CloudFormationGraph.convertOneReference
  cases hfind : ex.find? (fun p => p.2.nodeId == tn.id) with
  | none => exact JsMap.get_set_isSome_mono _ _ _ _ h
  | some p =>
      cases p with
      | mk nm info =>
          by_cases hnm : (nm == "") = true
          · simp only [hnm, if_true]
            exact JsMap.get_set_isSome_mono _ _ _ _ h
          · simp only [hnm, if_false]
            exact h

theorem convertReferencesToImports_get_mono (l : List GraphNode) :
    ∀ (ex : List (String × ExportInfo)) (mid name : String),
      (JsMap.get ex name).isSome = true →
      (JsMap.get (CloudFormationGraph.convertReferencesToImports mid ex l) name).isSome = true := by
  induction l with
  | nil => intro ex mid name h; exact h
  | cons tn l ih =>
      intro ex mid name h
      exact ih _ mid name (convertOneReference_get_mono ex tn name h)

theorem foldl_set_get_mono {β : Type} (f : β → String) (v : β → ExportInfo)
    (l : List β) :
    ∀ (ex : List (String × ExportInfo)) (name : String),
      (JsMap.get ex name).isSome = true →
      (JsMap.get (l.foldl (fun ex p => JsMap.set ex (f p) (v p)) ex) name).isSome = true := by
  induction l with
  | nil => intro ex name h; exact h
  | cons p l ih =>
      intro ex name h
      exact ih _ name (JsMap.get_set_isSome_mono _ _ _ _ h)

theorem moveEdgeSpec_import (nodes : List (String × GraphNode)) (c nq : String)
    (a : Bool) (t : String) (e : GraphEdge) (he : e.type = .IMPORT_VALUE) :
    ∃ e', moveEdgeSpec nodes c nq a t e = some e' ∧ e'.type = .IMPORT_VALUE ∧
      (e.crossStack = true → e'.crossStack = true) := by
  unfold moveEdgeSpec
  by_cases hcr : ((e.fromId == c && lookupCrossing nodes a t e.toId) ||
      (e.toId == c && lookupCrossing nodes a t e.fromId)) = true
  · rw [if_pos hcr, if_neg (by simp [he]), if_neg (by simp [he])]
    exact ⟨_, rfl, he, fun _ => rfl⟩
  · rw [if_neg hcr]
    exact ⟨_, rfl, he, fun hc => hc⟩

theorem moveEdgeSpec_depends_inv (nodes : List (String × GraphNode)) (c nq : String)
    (a : Bool) (t : String) (e e' : GraphEdge)
    (h : moveEdgeSpec nodes c nq a t e = some e')
    (ht : e'.type = .DEPENDS_ON) :
    e.type = .DEPENDS_ON ∧ e'.crossStack = e.crossStack := by
  unfold moveEdgeSpec at h
  by_cases hcr : ((e.fromId == c && lookupCrossing nodes a t e.toId) ||
      (e.toId == c && lookupCrossing nodes a t e.fromId)) = true
  · rw [if_pos hcr] at h
    by_cases hd : e.type = EdgeType.DEPENDS_ON
    · rw [if_pos hd] at h
      exact Option.noConfusion h
    · rw [if_neg hd] at h
      by_cases hr : (e.type = EdgeType.REFERENCE ∨ e.type = EdgeType.GET_ATT)
      · rw [if_pos hr] at h
        cases h
        exact absurd ht (by simp)
      · rw [if_neg hr] at h
        cases h
        exact absurd ht hd
  · rw [if_neg hcr] at h
    cases h
    exact ⟨ht, rfl⟩

namespace CloudFormationGraph

theorem moveNode_ok_cases {g g' : CloudFormationGraph} {frm dst : NodeLocation}
    (h : g.moveNode frm dst = .ok g') :
    (g' = g ∧ getQualifiedId frm.stackId frm.logicalId =
        getQualifiedId dst.stackId dst.logicalId) ∨
    (∃ node, JsMap.get g.nodes (getQualifiedId frm.stackId frm.logicalId) = some node ∧
      getQualifiedId frm.stackId frm.logicalId ≠
        getQualifiedId dst.stackId dst.logicalId ∧
      g' = moveNodeCommit g frm dst node) := by
  cases hget : JsMap.get g.nodes (getQualifiedId frm.stackId frm.logicalId) with
  | none =>
      rw [@moveNode_of_get_none g frm dst hget] at h
      exact Except.noConfusion h
  | some node =>
      rw [@moveNode_of_get_some g frm dst node hget] at h
      split at h
      · exact Except.noConfusion h
      · split at h
        case isTrue heq =>
            cases h
            exact Or.inl ⟨rfl, by simpa using heq⟩
        case isFalse hne =>
            cases h
            refine Or.inr ⟨node, rfl, ?_, rfl⟩
            simpa using hne

theorem moveNodeCommit_edges (g : CloudFormationGraph) (frm dst : NodeLocation)
    (node : GraphNode) :
    (moveNodeCommit g frm dst node).edges =
      g.edges.filterMap
        (moveEdgeSpec g.nodes (getQualifiedId frm.stackId frm.logicalId)
          (getQualifiedId dst.stackId dst.logicalId) (frm.stackId != dst.stackId)
          dst.stackId) := by
  simp only [moveNodeCommit]
  rw [List.filterMap_map]
  have hcomp : ((fun (p : Option GraphEdge × List GraphNode) => p.1) ∘
      (processEdge g.nodes (getQualifiedId frm.stackId frm.logicalId)
        (getQualifiedId dst.stackId dst.logicalId) (frm.stackId != dst.stackId)
        dst.stackId
        { node with id := getQualifiedId dst.stackId dst.logicalId,
                    stackId := some dst.stackId })) =
      moveEdgeSpec g.nodes (getQualifiedId frm.stackId frm.logicalId)
        (getQualifiedId dst.stackId dst.logicalId) (frm.stackId != dst.stackId)
        dst.stackId := by
    funext e
    exact processEdge_fst ..
  rw [hcomp]

theorem moveNodeCommit_exports_mono (g : CloudFormationGraph) (frm dst : NodeLocation)
    (node : GraphNode) (name : String)
    (h : (JsMap.get g.exports name).isSome = true) :
    (JsMap.get (moveNodeCommit g frm dst node).exports name).isSome = true := by
  simp only [moveNodeCommit]
  split
  · exact convertReferencesToImports_get_mono _ _ _ name
      (foldl_set_get_mono _ _ _ g.exports name h)
  · exact foldl_set_get_mono _ _ _ g.exports name h

end CloudFormationGraph

/-- Claim C1 (amended): `moveNode` performs no conversion back: an
`IMPORT_VALUE` edge of the input graph survives every successful
relocation as an `IMPORT_VALUE` edge (its cross-group flag is never
cleared), no `DEPENDS_ON` edge is ever inserted (every `DEPENDS_ON` edge
of the result is a `DEPENDS_ON` edge of the input with the same flag), and
no export registration is ever deleted — relocating a referrer and its
referent into the same destination group leaves the `IMPORT_VALUE` edge
and the export registration in place (the registration's source id merely
follows the moved node). -/
theorem claim_C1_amended (g g' : CloudFormationGraph) (frm dst : NodeLocation)
    (h : g.moveNode frm dst = .ok g') :
    (∀ name, (JsMap.get g.exports name).isSome = true →
        (JsMap.get g'.exports name).isSome = true) ∧
    (∀ e ∈ g.edges, e.type = EdgeType.IMPORT_VALUE →
        ∃ e' ∈ g'.edges, e'.type = EdgeType.IMPORT_VALUE ∧
          (e.crossStack = true → e'.crossStack = true)) ∧
    (∀ e' ∈ g'.edges, e'.type = EdgeType.DEPENDS_ON →
        ∃ e ∈ g.edges, e.type = EdgeType.DEPENDS_ON ∧ e'.crossStack = e.crossStack) := by
  rcases CloudFormationGraph.moveNode_ok_cases h with ⟨rfl, _⟩ | ⟨node, hget, hne, rfl⟩
  · exact ⟨fun name hn => hn,
      fun e he ht => ⟨e, he, ht, fun hc => hc⟩,
      fun e' he' ht' => ⟨e', he', ht', rfl⟩⟩
  · refine ⟨fun name hn => CloudFormationGraph.moveNodeCommit_exports_mono g frm dst node name hn, ?_, ?_⟩
    · intro e he ht
      obtain ⟨e', hspec, ht', hc⟩ := moveEdgeSpec_import g.nodes
        (CloudFormationGraph.getQualifiedId frm.stackId frm.logicalId)
        (CloudFormationGraph.getQualifiedId dst.stackId dst.logicalId)
        (frm.stackId != dst.stackId) dst.stackId e ht
      refine ⟨e', ?_, ht', hc⟩
      rw [CloudFormationGraph.moveNodeCommit_edges]
      exact List.mem_filterMap.mpr ⟨e, he, hspec⟩
    · intro e' he' ht'
      rw [CloudFormationGraph.moveNodeCommit_edges] at he'
      obtain ⟨e, he, hspec⟩ := List.mem_filterMap.mp he'
      obtain ⟨hd, hc⟩ := moveEdgeSpec_depends_inv _ _ _ _ _ e e' hspec ht'
      exact ⟨e, he, hd, hc⟩

/-- Claim C2 (amended): for a relocation that crosses a group boundary
(and actually moves, i.e. the two qualified addresses differ), the
resulting edge list is exactly the input edges processed one by one as
follows: endpoints equal to the old id are rewritten to the new id; an
edge is "crossing" when an endpoint is the old id and the *other*
endpoint's node — looked up in the pre-move node map, so a self-loop reads
the moved node's old group — lies outside the destination group; a
crossing `DEPENDS_ON` edge is dropped, a crossing `REFERENCE`/`GET_ATT`
edge becomes `IMPORT_VALUE` with its cross-group flag set, any other
crossing edge keeps its kind with the flag set, and a non-crossing edge
keeps kind and flag unchanged (in particular the flag is never cleared or
re-evaluated for edges that come to co-reside). -/
theorem claim_C2_amended (g g' : CloudFormationGraph) (frm dst : NodeLocation)
    (hacross : frm.stackId ≠ dst.stackId)
    (hne : CloudFormationGraph.getQualifiedId frm.stackId frm.logicalId ≠
      CloudFormationGraph.getQualifiedId dst.stackId dst.logicalId)
    (h : g.moveNode frm dst = .ok g') :
    g'.edges = g.edges.filterMap
      (moveEdgeSpec g.nodes (CloudFormationGraph.getQualifiedId frm.stackId frm.logicalId)
        (CloudFormationGraph.getQualifiedId dst.stackId dst.logicalId) true dst.stackId) := by
  rcases CloudFormationGraph.moveNode_ok_cases h with ⟨rfl, heq⟩ | ⟨node, hget, hne', rfl⟩
  · exact absurd heq hne
  · rw [CloudFormationGraph.moveNodeCommit_edges]
    have hb : (frm.stackId != dst.stackId) = true := bne_iff_ne.mpr hacross
    rw [hb]

def c1wNodeA : GraphNode := { id := "s1.A", type := "T", properties := .null, stackId := some "s1" }

def c1wNodeB : GraphNode := { id := "s2.B", type := "T", properties := .null, stackId := some "s2" }

def c1wEdge : GraphEdge := { fromId := "s2.B", toId := "s1.A", type := .IMPORT_VALUE, crossStack := true }

def c1wGraph : CloudFormationGraph :=
  { nodes := [("s1.A", c1wNodeA), ("s2.B", c1wNodeB)], edges := [c1wEdge],
    exports := [("E", { nodeId := "s1.A", outputId := "A" })] }

def c1wFinal : CloudFormationGraph :=
  { nodes := [("s2.B", c1wNodeB), ("s2.A", { id := "s2.A", type := "T", properties := .null, stackId := some "s2" })],
    edges := [{ fromId := "s2.B", toId := "s2.A", type := .IMPORT_VALUE, crossStack := true }],
    exports := [("E", { nodeId := "s2.A", outputId := "A" })] }

set_option maxRecDepth 10000 in
/-- Witness for the amended C1: moving the referent of a cross-stack
importing edge into the referrer's stack keeps the export registration
and keeps the `IMPORT_VALUE` edge with its flag. -/
theorem claim_C1_amended_witness :
    (JsMap.get c1wFinal.exports "E").isSome = true ∧
    (∃ e' ∈ c1wFinal.edges, e'.type = EdgeType.IMPORT_VALUE ∧
      (c1wEdge.crossStack = true → e'.crossStack = true)) :=
  ⟨(claim_C1_amended c1wGraph c1wFinal ⟨"s1", "A"⟩ ⟨"s2", "A"⟩ (by decide)).1 "E" (by decide),
   (claim_C1_amended c1wGraph c1wFinal ⟨"s1", "A"⟩ ⟨"s2", "A"⟩ (by decide)).2.1 c1wEdge
     (by decide) rfl⟩

set_option maxRecDepth 10000 in
/-- Witness for the amended C2 at the concrete self-loop relocation. -/
theorem claim_C2_amended_witness :
    c2Final.edges = c2Graph.edges.filterMap
      (moveEdgeSpec c2Graph.nodes "infra.A" "services.A" true "services") :=
  claim_C2_amended c2Graph c2Final ⟨"infra", "A"⟩ ⟨"services", "A"⟩
    (by decide) (by decide) (by decide)

mutual

/-- A reference construct naming `x` occurs somewhere in the tree: an
object whose `Ref` field is the string `x`, or whose `Fn::GetAtt` field is
an array headed by the string `x` (the forms the source's rewriter and the
parser's reference scanner recognize), at any depth. -/
def mentionsRef : String → PropValue → Bool
  | x, .arr xs => mentionsRefList x xs
  | x, .obj fs =>
      (match JsMap.get fs "Ref" with
       | some (.str s) => s == x
       | _ => false) ||
      (match JsMap.get fs "Fn::GetAtt" with
       | some (.arr (.str s :: _)) => s == x
       | _ => false) ||
      mentionsRefFields x fs
  | _, _ => false

/-- `mentionsRef` over array elements. -/
def mentionsRefList : String → List PropValue → Bool
  | _, [] => false
  | x, v :: vs => mentionsRef x v || mentionsRefList x vs

/-- `mentionsRef` over object field values. -/
def mentionsRefFields : String → List (String × PropValue) → Bool
  | _, [] => false
  | x, (_, v) :: fs => mentionsRef x v || mentionsRefFields x fs

end

mutual

/-- Somewhere in the tree an object's `Fn::GetAtt` field is an array
headed by the string `x` whose tail itself mentions `x`: the one shape on
which the source's rewriter abandons the tail unprocessed (its early
return copies `attr.slice(1)` verbatim). -/
def getAttTailTrap : String → PropValue → Bool
  | x, .arr xs => getAttTailTrapList x xs
  | x, .obj fs =>
      (match JsMap.get fs "Fn::GetAtt" with
       | some (.arr (.str s :: rest)) => s == x && mentionsRefList x rest
       | _ => false) ||
      getAttTailTrapFields x fs
  | _, _ => false

/-- `getAttTailTrap` over array elements. -/
def getAttTailTrapList : String → List PropValue → Bool
  | _, [] => false
  | x, v :: vs => getAttTailTrap x v || getAttTailTrapList x vs

/-- `getAttTailTrap` over object field values. -/
def getAttTailTrapFields : String → List (String × PropValue) → Bool
  | _, [] => false
  | x, (_, v) :: fs => getAttTailTrap x v || getAttTailTrapFields x fs

end

def c5Old : GraphNode := { id := "s1.Old", type := "T", properties := .null, stackId := some "s1" }

def c5X : GraphNode :=
  { id := "s1.X", type := "T",
    properties := .obj [("Fn::GetAtt", .arr [.str "Old", .obj [("Ref", .str "Old")]])],
    stackId := some "s1" }

def c5Graph : CloudFormationGraph := { nodes := [("s1.Old", c5Old), ("s1.X", c5X)] }

def c5XAfter : GraphNode :=
  { id := "s1.X", type := "T",
    properties := .obj [("Fn::GetAtt", .arr [.str "New", .obj [("Ref", .str "Old")]])],
    stackId := some "s1" }

def c5Final : CloudFormationGraph :=
  { nodes := [("s1.X", c5XAfter),
      ("s1.New", { id := "s1.New", type := "T", properties := .null, stackId := some "s1" })] }

set_option maxRecDepth 10000 in
/-- Counterexample to claim C5: renaming `Old` to `New` within its group
rewrites the `Fn::GetAtt` head of the other node's property tree but
leaves the `{ Ref: "Old" }` construct nested in that `Fn::GetAtt`'s
argument tail untouched — a reference construct naming the old local name
that survives the rename unrewritten. -/
theorem claim_C5_counterexample :
    c5Graph.moveNode ⟨"s1", "Old"⟩ ⟨"s1", "New"⟩ = .ok c5Final ∧
    mentionsRef "Old" c5XAfter.properties = true ∧
    (c5Final.getNode "s1.X").map GraphNode.properties = some c5XAfter.properties := by
  refine ⟨by decide, by decide, by decide⟩

theorem mentionsRef_null (x : String) : mentionsRef x .null = false := by
  rw [mentionsRef] <;> (intros; simp_all)

theorem mentionsRef_bool (x : String) (b : Bool) : mentionsRef x (.bool b) = false := by
  rw [mentionsRef] <;> (intros; simp_all)

theorem mentionsRef_num (x : String) (n : Int) : mentionsRef x (.num n) = false := by
  rw [mentionsRef] <;> (intros; simp_all)

theorem mentionsRef_str (x s : String) : mentionsRef x (.str s) = false := by
  rw [mentionsRef] <;> (intros; simp_all)

theorem mentionsRef_arr (x : String) (xs : List PropValue) :
    mentionsRef x (.arr xs) = mentionsRefList x xs := by
  rw [mentionsRef]

theorem mentionsRef_obj (x : String) (fs : List (String × PropValue)) :
    mentionsRef x (.obj fs) =
      ((match JsMap.get fs "Ref" with
        | some (.str s) => s == x
        | _ => false) ||
      (match JsMap.get fs "Fn::GetAtt" with
        | some (.arr (.str s :: _)) => s == x
        | _ => false) ||
      mentionsRefFields x fs) := by
  rw [mentionsRef]

theorem mentionsRefList_nil (x : String) : mentionsRefList x [] = false := by
  rw [mentionsRefList]

theorem mentionsRefList_cons (x : String) (v : PropValue) (vs : List PropValue) :
    mentionsRefList x (v :: vs) = (mentionsRef x v || mentionsRefList x vs) := by
  rw [mentionsRefList]

theorem mentionsRefFields_nil (x : String) : mentionsRefFields x [] = false := by
  rw [mentionsRefFields]

theorem mentionsRefFields_cons (x : String) (k : String) (v : PropValue)
    (fs : List (String × PropValue)) :
    mentionsRefFields x ((k, v) :: fs) = (mentionsRef x v || mentionsRefFields x fs) := by
  rw [mentionsRefFields]

theorem getAttTailTrap_arr (x : String) (xs : List PropValue) :
    getAttTailTrap x (.arr xs) = getAttTailTrapList x xs := by
  rw [getAttTailTrap]

theorem getAttTailTrap_obj (x : String) (fs : List (String × PropValue)) :
    getAttTailTrap x (.obj fs) =
      ((match JsMap.get fs "Fn::GetAtt" with
        | some (.arr (.str s :: rest)) => s == x && mentionsRefList x rest
        | _ => false) ||
      getAttTailTrapFields x fs) := by
  rw [getAttTailTrap]

theorem getAttTailTrapList_cons (x : String) (v : PropValue) (vs : List PropValue) :
    getAttTailTrapList x (v :: vs) = (getAttTailTrap x v || getAttTailTrapList x vs) := by
  rw [getAttTailTrapList]

theorem getAttTailTrapFields_cons (x : String) (k : String) (v : PropValue)
    (fs : List (String × PropValue)) :
    getAttTailTrapFields x ((k, v) :: fs) =
      (getAttTailTrap x v || getAttTailTrapFields x fs) := by
  rw [getAttTailTrapFields]

theorem updateReferencesInProperties_obj (fs : List (String × PropValue)) (x y : String) :
    updateReferencesInProperties (.obj fs) x y =
      (if JsMap.get fs "Ref" = some (.str x) then
        .obj [("Ref", .str y)]
      else
        match JsMap.get fs "Fn::GetAtt" with
        | some (.arr (.str h :: rest)) =>
            if h = x then .obj [("Fn::GetAtt", .arr (.str y :: rest))]
            else .obj (updateReferencesInFields fs x y)
        | _ => .obj (updateReferencesInFields fs x y)) := by
  rw [updateReferencesInProperties]

theorem updateReferencesInList_cons (v : PropValue) (vs : List PropValue) (x y : String) :
    updateReferencesInList (v :: vs) x y =
      updateReferencesInProperties v x y :: updateReferencesInList vs x y := by
  rw [updateReferencesInList]

theorem upd_str_inv {v : PropValue} {x y s : String}
    (h : updateReferencesInProperties v x y = .str s) : v = .str s := by
  cases v with
  | str t => simpa [updateReferencesInProperties] using h
  | null => exact absurd h (by simp [updateReferencesInProperties])
  | bool b => exact absurd h (by simp [updateReferencesInProperties])
  | num n => exact absurd h (by simp [updateReferencesInProperties])
  | arr xs => exact absurd h (by simp [updateReferencesInProperties])
  | obj fs =>
      exfalso
      unfold updateReferencesInProperties at h
      split at h
      · exact PropValue.noConfusion h
      · split at h
        · split at h <;> exact PropValue.noConfusion h
        · exact PropValue.noConfusion h

theorem upd_arr_inv {v : PropValue} {x y : String} {ys : List PropValue}
    (h : updateReferencesInProperties v x y = .arr ys) :
    ∃ xs, v = .arr xs ∧ ys = updateReferencesInList xs x y := by
  cases v with
  | arr xs =>
      refine ⟨xs, rfl, ?_⟩
      have := h
      simp only [updateReferencesInProperties] at this
      exact (PropValue.arr.injEq _ _).mp this.symm |>.symm ▸ rfl
  | null => exact absurd h (by simp [updateReferencesInProperties])
  | bool b => exact absurd h (by simp [updateReferencesInProperties])
  | num n => exact absurd h (by simp [updateReferencesInProperties])
  | str t => exact absurd h (by simp [updateReferencesInProperties])
  | obj fs =>
      exfalso
      unfold updateReferencesInProperties at h
      split at h
      · exact PropValue.noConfusion h
      · split at h
        · split at h <;> exact PropValue.noConfusion h
        · exact PropValue.noConfusion h

theorem get_updateReferencesInFields (fs : List (String × PropValue)) (x y k : String) :
    JsMap.get (updateReferencesInFields fs x y) k =
      (JsMap.get fs k).map (fun v => updateReferencesInProperties v x y) := by
  induction fs with
  | nil => rfl
  | cons p fs ih =>
      cases p with
      | mk pk pv =>
          rw [updateReferencesInFields, JsMap.get_cons, JsMap.get_cons]
          by_cases hk : (pk == k) = true
          · simp [hk]
          · simp only [hk, Bool.false_eq_true, ite_false]
            exact ih

mutual

theorem upd_no_mention (x y : String) (hxy : (y == x) = false) :
    ∀ p, getAttTailTrap x p = false →
      mentionsRef x (updateReferencesInProperties p x y) = false
  | .null, _ => mentionsRef_null x
  | .bool b, _ => mentionsRef_bool x b
  | .num n, _ => mentionsRef_num x n
  | .str s, _ => mentionsRef_str x s
  | .arr xs, h => by
      have h' : getAttTailTrapList x xs = false := by
        rw [getAttTailTrap_arr] at h
        exact h
      show mentionsRefList x (updateReferencesInList xs x y) = false
      exact upd_no_mention_list x y hxy xs h'
  | .obj fs, h => by
      rw [getAttTailTrap_obj, Bool.or_eq_false_iff] at h
      obtain ⟨htrapGA, htrapF⟩ := h
      have hfields := upd_no_mention_fields x y hxy fs htrapF
      have hkey : (∀ rest, JsMap.get fs "Fn::GetAtt" ≠ some (.arr (.str x :: rest))) →
          ¬ JsMap.get fs "Ref" = some (.str x) →
          mentionsRef x (PropValue.obj (updateReferencesInFields fs x y)) = false := by
        intro hnga href
        rw [mentionsRef_obj, get_updateReferencesInFields, get_updateReferencesInFields,
          Bool.or_eq_false_iff, Bool.or_eq_false_iff]
        refine ⟨⟨?_, ?_⟩, hfields⟩
        · cases hr : JsMap.get fs "Ref" with
          | none => rfl
          | some v =>
              rw [show (some v).map (fun v => updateReferencesInProperties v x y) =
                some (updateReferencesInProperties v x y) from rfl]
              cases hv : updateReferencesInProperties v x y with
              | str s =>
                  show (s == x) = false
                  have hvs : v = .str s := upd_str_inv hv
                  by_cases hs : (s == x) = true
                  · exfalso
                    apply href
                    rw [hr, hvs, show s = x by simpa using hs]
                  · simpa using hs
              | null => rfl
              | bool _ => rfl
              | num _ => rfl
              | arr _ => rfl
              | obj _ => rfl
        · cases hga : JsMap.get fs "Fn::GetAtt" with
          | none => rfl
          | some v =>
              rw [show (some v).map (fun v => updateReferencesInProperties v x y) =
                some (updateReferencesInProperties v x y) from rfl]
              cases hv : updateReferencesInProperties v x y with
              | arr ys =>
                  obtain ⟨xs, hvx, hys⟩ := upd_arr_inv hv
                  cases xs with
                  | nil =>
                      have hy0 : ys = [] := by
                        rw [hys]
                        rfl
                      rw [hy0]
                  | cons v0 vs =>
                      have hy1 : ys = updateReferencesInProperties v0 x y ::
                          updateReferencesInList vs x y := by
                        rw [hys, updateReferencesInList_cons]
                      rw [hy1]
                      cases hv0 : updateReferencesInProperties v0 x y with
                      | str s =>
                          show (s == x) = false
                          have hv0' : v0 = .str s := upd_str_inv hv0
                          by_cases hs : (s == x) = true
                          · exfalso
                            apply hnga vs
                            rw [hga, hvx, hv0', show s = x by simpa using hs]
                          · simpa using hs
                      | null => rfl
                      | bool _ => rfl
                      | num _ => rfl
                      | arr _ => rfl
                      | obj _ => rfl
              | null => rfl
              | bool _ => rfl
              | num _ => rfl
              | str _ => rfl
              | obj _ => rfl
      rw [updateReferencesInProperties_obj]
      by_cases href : JsMap.get fs "Ref" = some (.str x)
      · rw [if_pos href, mentionsRef_obj,
          show JsMap.get [("Ref", PropValue.str y)] "Ref" = some (PropValue.str y) from rfl,
          show JsMap.get [("Ref", PropValue.str y)] "Fn::GetAtt" = none from rfl,
          mentionsRefFields_cons, mentionsRefFields_nil, mentionsRef_str]
        show ((y == x) || false || (false || false)) = false
        rw [hxy]
        rfl
      · rw [if_neg href]
        cases hga : JsMap.get fs "Fn::GetAtt" with
        | none =>
            exact hkey (fun rest hc => by rw [hga] at hc; exact Option.noConfusion hc) href
        | some v =>
            cases v with
            | arr elems =>
                cases elems with
                | nil =>
                    exact hkey (fun rest hc => by
                      rw [hga] at hc
                      simp at hc) href
                | cons v0 vs =>
                    cases v0 with
                    | str hd =>
                        by_cases hhd : hd = x
                        · show mentionsRef x
                            (if hd = x then
                              PropValue.obj [("Fn::GetAtt", PropValue.arr (PropValue.str y :: vs))]
                            else PropValue.obj (updateReferencesInFields fs x y)) = false
                          rw [if_pos hhd]
                          have htail : mentionsRefList x vs = false := by
                            rw [hga] at htrapGA
                            have hbeq : (hd == x) = true := by simpa using hhd
                            simpa [hbeq] using htrapGA
                          rw [mentionsRef_obj,
                            show JsMap.get
                              [("Fn::GetAtt", PropValue.arr (PropValue.str y :: vs))] "Ref" =
                              none from rfl,
                            show JsMap.get
                              [("Fn::GetAtt", PropValue.arr (PropValue.str y :: vs))]
                              "Fn::GetAtt" =
                              some (PropValue.arr (PropValue.str y :: vs)) from rfl,
                            mentionsRefFields_cons, mentionsRefFields_nil,
                            mentionsRef_arr, mentionsRefList_cons, mentionsRef_str, htail]
                          show (false || (y == x) || (false || false || false)) = false
                          rw [hxy]
                          rfl
                        · show mentionsRef x
                            (if hd = x then
                              PropValue.obj [("Fn::GetAtt", PropValue.arr (PropValue.str y :: vs))]
                            else PropValue.obj (updateReferencesInFields fs x y)) = false
                          rw [if_neg hhd]
                          exact hkey (fun rest hc => by
                            rw [hga] at hc
                            have := (PropValue.arr.injEq _ _).mp ((Option.some.injEq _ _).mp hc)
                            have hh := (List.cons.injEq _ _ _ _).mp this
                            exact hhd ((PropValue.str.injEq _ _).mp hh.1)) href
                    | null =>
                        exact hkey (fun rest hc => by rw [hga] at hc; simp at hc) href
                    | bool _ =>
                        exact hkey (fun rest hc => by rw [hga] at hc; simp at hc) href
                    | num _ =>
                        exact hkey (fun rest hc => by rw [hga] at hc; simp at hc) href
                    | arr _ =>
                        exact hkey (fun rest hc => by rw [hga] at hc; simp at hc) href
                    | obj _ =>
                        exact hkey (fun rest hc => by rw [hga] at hc; simp at hc) href
            | null => exact hkey (fun rest hc => by rw [hga] at hc; simp at hc) href
            | bool _ => exact hkey (fun rest hc => by rw [hga] at hc; simp at hc) href
            | num _ => exact hkey (fun rest hc => by rw [hga] at hc; simp at hc) href
            | str _ => exact hkey (fun rest hc => by rw [hga] at hc; simp at hc) href
            | obj _ => exact hkey (fun rest hc => by rw [hga] at hc; simp at hc) href

theorem upd_no_mention_list (x y : String) (hxy : (y == x) = false) :
    ∀ xs, getAttTailTrapList x xs = false →
      mentionsRefList x (updateReferencesInList xs x y) = false
  | [], _ => mentionsRefList_nil x
  | v :: vs, h => by
      rw [getAttTailTrapList_cons, Bool.or_eq_false_iff] at h
      rw [updateReferencesInList_cons, mentionsRefList_cons,
        upd_no_mention x y hxy v h.1, upd_no_mention_list x y hxy vs h.2]
      rfl

theorem upd_no_mention_fields (x y : String) (hxy : (y == x) = false) :
    ∀ fs, getAttTailTrapFields x fs = false →
      mentionsRefFields x (updateReferencesInFields fs x y) = false
  | [], _ => mentionsRefFields_nil x
  | (k, v) :: fs, h => by
      rw [getAttTailTrapFields_cons, Bool.or_eq_false_iff] at h
      rw [show updateReferencesInFields ((k, v) :: fs) x y =
          (k, updateReferencesInProperties v x y) :: updateReferencesInFields fs x y from
          by rw [updateReferencesInFields],
        mentionsRefFields_cons,
        upd_no_mention x y hxy v h.1, upd_no_mention_fields x y hxy fs h.2]
      rfl

end

mutual

theorem upd_mention_new (x y : String) :
    ∀ p, mentionsRef x p = true →
      mentionsRef y (updateReferencesInProperties p x y) = true
  | .null, h => absurd h (by rw [mentionsRef_null]; exact Bool.false_ne_true)
  | .bool b, h => absurd h (by rw [mentionsRef_bool]; exact Bool.false_ne_true)
  | .num n, h => absurd h (by rw [mentionsRef_num]; exact Bool.false_ne_true)
  | .str s, h => absurd h (by rw [mentionsRef_str]; exact Bool.false_ne_true)
  | .arr xs, h => by
      rw [mentionsRef_arr] at h
      show mentionsRefList y (updateReferencesInList xs x y) = true
      exact upd_mention_new_list x y xs h
  | .obj fs, h => by
      rw [updateReferencesInProperties_obj]
      by_cases href : JsMap.get fs "Ref" = some (.str x)
      · rw [if_pos href, mentionsRef_obj,
          show JsMap.get [("Ref", PropValue.str y)] "Ref" = some (PropValue.str y) from rfl]
        show ((y == y) || _ || _) = true
        rw [beq_self_eq_true]
        rfl
      · rw [if_neg href]
        have hrefD : (match JsMap.get fs "Ref" with
            | some (.str s) => s == x
            | _ => false) = false := by
          cases hr : JsMap.get fs "Ref" with
          | none => rfl
          | some v =>
              cases v with
              | str s =>
                  show (s == x) = false
                  by_cases hs : (s == x) = true
                  · exact absurd (by rw [hr, show s = x by simpa using hs]) href
                  · simpa using hs
              | null => rfl
              | bool _ => rfl
              | num _ => rfl
              | arr _ => rfl
              | obj _ => rfl
        have hrest : (match JsMap.get fs "Fn::GetAtt" with
              | some (.arr (.str s :: _)) => s == x
              | _ => false) = false →
            mentionsRef y (PropValue.obj (updateReferencesInFields fs x y)) = true := by
          intro hgaD
          rw [mentionsRef_obj] at h
          rw [hrefD, hgaD] at h
          have hf : mentionsRefFields x fs = true := by simpa using h
          rw [mentionsRef_obj, upd_mention_new_fields x y fs hf]
          show (_ || _ || true) = true
          rw [Bool.or_true]
        cases hga : JsMap.get fs "Fn::GetAtt" with
        | none => exact hrest (by rw [hga])
        | some v =>
            cases v with
            | arr elems =>
                cases elems with
                | nil => exact hrest (by rw [hga])
                | cons v0 vs =>
                    cases v0 with
                    | str hd =>
                        by_cases hhd : hd = x
                        · show mentionsRef y
                            (if hd = x then
                              PropValue.obj [("Fn::GetAtt", PropValue.arr (PropValue.str y :: vs))]
                            else PropValue.obj (updateReferencesInFields fs x y)) = true
                          rw [if_pos hhd, mentionsRef_obj,
                            show JsMap.get
                              [("Fn::GetAtt", PropValue.arr (PropValue.str y :: vs))]
                              "Fn::GetAtt" =
                              some (PropValue.arr (PropValue.str y :: vs)) from rfl]
                          show (_ || (y == y) || _) = true
                          rw [beq_self_eq_true]
                          show (_ || true || _) = true
                          rw [Bool.or_true, Bool.true_or]
                        · show mentionsRef y
                            (if hd = x then
                              PropValue.obj [("Fn::GetAtt", PropValue.arr (PropValue.str y :: vs))]
                            else PropValue.obj (updateReferencesInFields fs x y)) = true
                          rw [if_neg hhd]
                          exact hrest (by
                            rw [hga]
                            show (hd == x) = false
                            simpa using hhd)
                    | null => exact hrest (by rw [hga])
                    | bool _ => exact hrest (by rw [hga])
                    | num _ => exact hrest (by rw [hga])
                    | arr _ => exact hrest (by rw [hga])
                    | obj _ => exact hrest (by rw [hga])
            | null => exact hrest (by rw [hga])
            | bool _ => exact hrest (by rw [hga])
            | num _ => exact hrest (by rw [hga])
            | str _ => exact hrest (by rw [hga])
            | obj _ => exact hrest (by rw [hga])

theorem upd_mention_new_list (x y : String) :
    ∀ xs, mentionsRefList x xs = true →
      mentionsRefList y (updateReferencesInList xs x y) = true
  | [], h => absurd h (by rw [mentionsRefList_nil]; exact Bool.false_ne_true)
  | v :: vs, h => by
      rw [mentionsRefList_cons, Bool.or_eq_true] at h
      rw [updateReferencesInList_cons, mentionsRefList_cons, Bool.or_eq_true]
      rcases h with h | h
      · exact Or.inl (upd_mention_new x y v h)
      · exact Or.inr (upd_mention_new_list x y vs h)

theorem upd_mention_new_fields (x y : String) :
    ∀ fs, mentionsRefFields x fs = true →
      mentionsRefFields y (updateReferencesInFields fs x y) = true
  | [], h => absurd h (by rw [mentionsRefFields_nil]; exact Bool.false_ne_true)
  | (k, v) :: fs, h => by
      rw [mentionsRefFields_cons, Bool.or_eq_true] at h
      rw [show updateReferencesInFields ((k, v) :: fs) x y =
          (k, updateReferencesInProperties v x y) :: updateReferencesInFields fs x y from
          by rw [updateReferencesInFields],
        mentionsRefFields_cons, Bool.or_eq_true]
      rcases h with h | h
      · exact Or.inl (upd_mention_new x y v h)
      · exact Or.inr (upd_mention_new_fields x y fs h)

end

theorem getQualifiedId_ne_of_logical_ne (s l1 l2 : String) (h : l1 ≠ l2) :
    CloudFormationGraph.getQualifiedId s l1 ≠ CloudFormationGraph.getQualifiedId s l2 := by
  intro he
  apply h
  have hd := congrArg String.data he
  simp only [CloudFormationGraph.getQualifiedId, String.data_append] at hd
  exact String.ext (List.append_cancel_left hd)

theorem lookupCrossing_false (nodes : List (String × GraphNode)) (t other : String) :
    lookupCrossing nodes false t other = false := by
  unfold lookupCrossing
  cases JsMap.get nodes other <;> rfl

theorem moveEdgeSpec_no_cross (nodes : List (String × GraphNode)) (c nq t : String)
    (e : GraphEdge) :
    moveEdgeSpec nodes c nq false t e =
      some { e with fromId := if e.fromId == c then nq else e.fromId,
                    toId := if e.toId == c then nq else e.toId } := by
  unfold moveEdgeSpec
  rw [lookupCrossing_false, lookupCrossing_false]
  rw [if_neg (by simp)]

theorem get_renameMap (m : List (String × GraphNode)) (c s x y k : String) (hk : k ≠ c) :
    JsMap.get (m.map (fun p =>
      if p.1 != c && p.2.stackId == some s then
        (p.1, { p.2 with properties := updateReferencesInProperties p.2.properties x y })
      else p)) k =
    (JsMap.get m k).map (fun n =>
      if n.stackId == some s then
        { n with properties := updateReferencesInProperties n.properties x y }
      else n) := by
  induction m with
  | nil => rfl
  | cons p m ih =>
      rw [List.map_cons]
      by_cases hcond : (p.1 != c && p.2.stackId == some s) = true
      · rw [if_pos hcond, JsMap.get_cons, JsMap.get_cons]
        by_cases hpk : (p.1 == k) = true
        · rw [if_pos hpk, if_pos hpk]
          rw [Bool.and_eq_true] at hcond
          rw [show Option.map (fun n =>
              if n.stackId == some s then
                { n with properties := updateReferencesInProperties n.properties x y }
              else n) (some p.2) =
            some (if p.2.stackId == some s then
                { p.2 with properties := updateReferencesInProperties p.2.properties x y }
              else p.2) from rfl]
          rw [if_pos hcond.2]
        · rw [if_neg hpk, if_neg hpk]
          exact ih
      · rw [if_neg hcond, JsMap.get_cons, JsMap.get_cons]
        by_cases hpk : (p.1 == k) = true
        · rw [if_pos hpk, if_pos hpk]
          have hp1 : p.1 = k := by simpa using hpk
          have hne : (p.1 != c) = true := by
            simp only [bne_iff_ne, ne_eq, hp1]
            exact hk
          rw [Bool.and_eq_true] at hcond
          have hst : (p.2.stackId == some s) = false := by
            by_cases hq : (p.2.stackId == some s) = true
            · exact absurd ⟨hne, hq⟩ hcond
            · simpa using hq
          rw [show Option.map (fun n =>
              if n.stackId == some s then
                { n with properties := updateReferencesInProperties n.properties x y }
              else n) (some p.2) =
            some (if p.2.stackId == some s then
                { p.2 with properties := updateReferencesInProperties p.2.properties x y }
              else p.2) from rfl]
          rw [hst]
          rfl
        · rw [if_neg hpk, if_neg hpk]
          exact ih
theorem foldl_set_get (f : String × ExportInfo → ExportInfo) :
    ∀ (l ex : List (String × ExportInfo)) (name : String),
      JsMap.get (l.foldl (fun ex p => JsMap.set ex p.1 (f p)) ex) name =
        (match l.reverse.find? (fun p => p.1 == name) with
         | some p => some (f p)
         | none => JsMap.get ex name) := by
  intro l
  induction l with
  | nil => intro ex name; rfl
  | cons p l ih =>
      intro ex name
      rw [List.foldl_cons, ih, List.reverse_cons, List.find?_append]
      cases hfind : l.reverse.find? (fun p => p.1 == name) with
      | some q => rfl
      | none =>
          rw [Option.none_or]
          by_cases hpk : (p.1 == name) = true
          · have hp1 : name = p.1 := by
              have : p.1 = name := by simpa using hpk
              exact this.symm
            rw [show List.find? (fun p => p.1 == name) [p] = some p from by
              simp [List.find?, hpk]]
            rw [hp1, JsMap.get_set_self]
          · rw [show List.find? (fun p => p.1 == name) [p] = none from by
              simp [List.find?, hpk]]
            have hne : name ≠ p.1 := fun he => hpk (by simp [he])
            rw [JsMap.get_set_ne ex p.1 name (f p) hne]

theorem filter_reverse_find (m : List (String × ExportInfo)) (c name : String)
    (hnodup : (m.map Prod.fst).Nodup) :
    ((m.filter (fun p => p.2.nodeId == c)).reverse.find? (fun p => p.1 == name)) =
      (match JsMap.get m name with
       | some i => if i.nodeId == c then some (name, i) else none
       | none => none) := by
  induction m with
  | nil => rfl
  | cons p m ih =>
      rw [List.map_cons, List.nodup_cons] at hnodup
      rw [List.filter_cons, JsMap.get_cons]
      by_cases hpk : (p.1 == name) = true
      · have hp1 : p.1 = name := by simpa using hpk
        have hnone : (m.filter (fun q => q.2.nodeId == c)).reverse.find?
            (fun q => q.1 == name) = none := by
          apply List.find?_eq_none.mpr
          intro q hq
          rw [List.mem_reverse, List.mem_filter] at hq
          have hmem : q.1 ∈ m.map Prod.fst := List.mem_map.mpr ⟨q, hq.1, rfl⟩
          intro hqk
          have hq1 : q.1 = name := by simpa using hqk
          apply hnodup.1
          rw [hp1, ← hq1]
          exact hmem
        by_cases hkept : (p.2.nodeId == c) = true
        · rw [if_pos hkept, if_pos hpk, List.reverse_cons, List.find?_append, hnone,
            Option.none_or]
          rw [show List.find? (fun q => q.1 == name) [p] = some p from by
            simp [List.find?, hpk]]
          have hpe : p = (name, p.2) := by
            cases p
            simp only at hp1
            rw [hp1]
          rw [show (match some p.2 with
              | some i => if i.nodeId == c then some (name, i) else none
              | none => (none : Option (String × ExportInfo))) =
            (if p.2.nodeId == c then some (name, p.2) else none) from rfl]
          rw [if_pos hkept, ← hpe]
        · rw [if_neg hkept, if_pos hpk, hnone]
          rw [show (match some p.2 with
              | some i => if i.nodeId == c then some (name, i) else none
              | none => (none : Option (String × ExportInfo))) =
            (if p.2.nodeId == c then some (name, p.2) else none) from rfl]
          rw [if_neg hkept]
      · rw [if_neg hpk]
        have ihm := ih hnodup.2
        by_cases hkept : (p.2.nodeId == c) = true
        · rw [if_pos hkept, List.reverse_cons, List.find?_append, ihm]
          rw [show List.find? (fun q => q.1 == name) [p] = none from by
            simp [List.find?, hpk]]
          cases JsMap.get m name with
          | none => rfl
          | some i =>
              by_cases hic : (i.nodeId == c) = true
              · rw [show (match some i with
                    | some j => if j.nodeId == c then some (name, j) else none
                    | none => (none : Option (String × ExportInfo))) =
                  (if i.nodeId == c then some (name, i) else none) from rfl]
                rw [if_pos hic]
                rfl
              · rw [show (match some i with
                    | some j => if j.nodeId == c then some (name, j) else none
                    | none => (none : Option (String × ExportInfo))) =
                  (if i.nodeId == c then some (name, i) else none) from rfl]
                rw [if_neg hic]
                rfl
        · rw [if_neg hkept, ihm]

theorem exports_rename_get (m : List (String × ExportInfo)) (c nq name : String)
    (hnodup : (m.map Prod.fst).Nodup) :
    JsMap.get ((m.filter (fun p => p.2.nodeId == c)).foldl
        (fun ex p => JsMap.set ex p.1 { p.2 with nodeId := nq }) m) name =
      (JsMap.get m name).map (fun i =>
        if i.nodeId == c then { i with nodeId := nq } else i) := by
  rw [foldl_set_get (fun p => { p.2 with nodeId := nq }), filter_reverse_find m c name hnodup]
  cases JsMap.get m name with
  | none => rfl
  | some i =>
      by_cases hic : (i.nodeId == c) = true
      · rw [show (match some i with
            | some j => if j.nodeId == c then some (name, j) else none
            | none => (none : Option (String × ExportInfo))) =
          (if i.nodeId == c then some (name, i) else none) from rfl]
        rw [if_pos hic]
        rw [show Option.map (fun i =>
            if i.nodeId == c then { i with nodeId := nq } else i) (some i) =
          some (if i.nodeId == c then { i with nodeId := nq } else i) from rfl]
        rw [if_pos hic]
      · rw [show (match some i with
            | some j => if j.nodeId == c then some (name, j) else none
            | none => (none : Option (String × ExportInfo))) =
          (if i.nodeId == c then some (name, i) else none) from rfl]
        rw [if_neg hic]
        rw [show Option.map (fun i =>
            if i.nodeId == c then { i with nodeId := nq } else i) (some i) =
          some (if i.nodeId == c then { i with nodeId := nq } else i) from rfl]
        rw [if_neg hic]


theorem list_filterMap_some {α β : Type} (f : α → β) (l : List α) :
    l.filterMap (fun a => some (f a)) = l.map f := by
  induction l with
  | nil => rfl
  | cons a l ih => rw [List.filterMap_cons, List.map_cons]; rw [ih]

namespace CloudFormationGraph

theorem moveNodeCommit_edges_rename (g : CloudFormationGraph) (frm dst : NodeLocation)
    (node : GraphNode) (hsame : frm.stackId = dst.stackId) :
    (moveNodeCommit g frm dst node).edges =
      g.edges.map (fun e =>
        { e with
          fromId := if e.fromId == getQualifiedId frm.stackId frm.logicalId then
            getQualifiedId dst.stackId dst.logicalId else e.fromId,
          toId := if e.toId == getQualifiedId frm.stackId frm.logicalId then
            getQualifiedId dst.stackId dst.logicalId else e.toId }) := by
  rw [moveNodeCommit_edges]
  have hb : (frm.stackId != dst.stackId) = false := by simp [hsame]
  rw [hb]
  have hfun : moveEdgeSpec g.nodes (getQualifiedId frm.stackId frm.logicalId)
      (getQualifiedId dst.stackId dst.logicalId) false dst.stackId =
    (fun e => some { e with
        fromId := if e.fromId == getQualifiedId frm.stackId frm.logicalId then
          getQualifiedId dst.stackId dst.logicalId else e.fromId,
        toId := if e.toId == getQualifiedId frm.stackId frm.logicalId then
          getQualifiedId dst.stackId dst.logicalId else e.toId }) :=
    funext (fun e => moveEdgeSpec_no_cross g.nodes
      (getQualifiedId frm.stackId frm.logicalId)
      (getQualifiedId dst.stackId dst.logicalId) dst.stackId e)
  rw [hfun, list_filterMap_some]

theorem moveNodeCommit_nodes_moved (g : CloudFormationGraph) (frm dst : NodeLocation)
    (node : GraphNode) :
    JsMap.get (moveNodeCommit g frm dst node).nodes
        (getQualifiedId dst.stackId dst.logicalId) =
      some { node with id := getQualifiedId dst.stackId dst.logicalId,
                       stackId := some dst.stackId } := by
  simp only [moveNodeCommit]
  exact JsMap.get_set_self ..

theorem moveNodeCommit_nodes_old_gone (g : CloudFormationGraph) (frm dst : NodeLocation)
    (node : GraphNode)
    (hne : getQualifiedId frm.stackId frm.logicalId ≠
      getQualifiedId dst.stackId dst.logicalId) :
    JsMap.get (moveNodeCommit g frm dst node).nodes
        (getQualifiedId frm.stackId frm.logicalId) = none := by
  simp only [moveNodeCommit]
  rw [JsMap.get_set_ne _ _ _ _ hne, JsMap.get_delete, if_pos rfl]

theorem moveNodeCommit_nodes_rename (g : CloudFormationGraph) (frm dst : NodeLocation)
    (node : GraphNode) (hsame : frm.stackId = dst.stackId)
    (hdiff : frm.logicalId ≠ dst.logicalId) (k : String)
    (hk1 : k ≠ getQualifiedId frm.stackId frm.logicalId)
    (hk2 : k ≠ getQualifiedId dst.stackId dst.logicalId) :
    JsMap.get (moveNodeCommit g frm dst node).nodes k =
      (JsMap.get g.nodes k).map (fun n =>
        if n.stackId == some frm.stackId then
          { n with properties := updateReferencesInProperties n.properties frm.logicalId dst.logicalId }
        else n) := by
  simp only [moveNodeCommit]
  rw [JsMap.get_set_ne _ _ _ _ hk2, JsMap.get_delete, if_neg hk1]
  have hcond : (!(frm.stackId != dst.stackId) && frm.logicalId != dst.logicalId) = true := by
    simp [hsame, hdiff]
  rw [hcond, if_pos rfl]
  exact get_renameMap g.nodes (getQualifiedId frm.stackId frm.logicalId) frm.stackId
    frm.logicalId dst.logicalId k hk1

theorem moveNodeCommit_exports_rename (g : CloudFormationGraph) (frm dst : NodeLocation)
    (node : GraphNode) (hsame : frm.stackId = dst.stackId)
    (hnodup : (g.exports.map Prod.fst).Nodup) (name : String) :
    JsMap.get (moveNodeCommit g frm dst node).exports name =
      (JsMap.get g.exports name).map (fun i =>
        if i.nodeId == getQualifiedId frm.stackId frm.logicalId then
          { i with nodeId := getQualifiedId dst.stackId dst.logicalId }
        else i) := by
  simp only [moveNodeCommit]
  have hb : (frm.stackId != dst.stackId) = false := by simp [hsame]
  rw [hb, Bool.false_and, if_neg (by simp)]
  exact exports_rename_get g.exports (getQualifiedId frm.stackId frm.logicalId)
    (getQualifiedId dst.stackId dst.logicalId) name hnodup

end CloudFormationGraph

/-- Claim C5 (amended): a successful pure rename (`moveNode` with the same
group, a different local name) re-keys the node to the new qualified
address (updating its stored id), removes the old address, and maps every
other entry of the node map in place: entries in the moving node's group
get their property trees passed through the rewriter
`updateReferencesInProperties old new`, entries of other groups are
returned untouched; the edge list is mapped one-to-one with endpoints equal
to the old address rewritten to the new one and kind and cross-group flag
preserved (nothing is dropped or converted); export registrations (their
names assumed unique, as the spec's invariant states) are updated pointwise,
a registration's source id following the move exactly when it was the old
address.  The rewriter itself is complete on every property tree free of
the `Fn::GetAtt`-tail shape of the counterexample: on such trees no
reference construct naming the old local name survives, and wherever the
old name was mentioned the new name is mentioned afterwards — but not on
trees containing that shape, which is why the original claim is corrected
rather than confirmed. -/
theorem claim_C5_amended (g g' : CloudFormationGraph) (frm dst : NodeLocation)
    (hsame : frm.stackId = dst.stackId)
    (hdiff : frm.logicalId ≠ dst.logicalId)
    (hnodup : (g.exports.map Prod.fst).Nodup)
    (h : g.moveNode frm dst = .ok g') :
    (∃ node, JsMap.get g.nodes (CloudFormationGraph.getQualifiedId frm.stackId frm.logicalId) = some node ∧
      JsMap.get g'.nodes (CloudFormationGraph.getQualifiedId dst.stackId dst.logicalId) =
        some { node with id := CloudFormationGraph.getQualifiedId dst.stackId dst.logicalId,
                         stackId := some dst.stackId }) ∧
    JsMap.get g'.nodes (CloudFormationGraph.getQualifiedId frm.stackId frm.logicalId) = none ∧
    (∀ k, k ≠ CloudFormationGraph.getQualifiedId frm.stackId frm.logicalId →
      k ≠ CloudFormationGraph.getQualifiedId dst.stackId dst.logicalId →
      JsMap.get g'.nodes k = (JsMap.get g.nodes k).map (fun n =>
        if n.stackId == some frm.stackId then
          { n with properties := updateReferencesInProperties n.properties frm.logicalId dst.logicalId }
        else n)) ∧
    g'.edges = g.edges.map (fun e =>
      { e with
        fromId := if e.fromId == CloudFormationGraph.getQualifiedId frm.stackId frm.logicalId then
          CloudFormationGraph.getQualifiedId dst.stackId dst.logicalId else e.fromId,
        toId := if e.toId == CloudFormationGraph.getQualifiedId frm.stackId frm.logicalId then
          CloudFormationGraph.getQualifiedId dst.stackId dst.logicalId else e.toId }) ∧
    (∀ name, JsMap.get g'.exports name = (JsMap.get g.exports name).map (fun i =>
      if i.nodeId == CloudFormationGraph.getQualifiedId frm.stackId frm.logicalId then
        { i with nodeId := CloudFormationGraph.getQualifiedId dst.stackId dst.logicalId }
      else i)) ∧
    (∀ p, getAttTailTrap frm.logicalId p = false →
      mentionsRef frm.logicalId (updateReferencesInProperties p frm.logicalId dst.logicalId) = false) ∧
    (∀ p, mentionsRef frm.logicalId p = true →
      mentionsRef dst.logicalId (updateReferencesInProperties p frm.logicalId dst.logicalId) = true) := by
  have hne : CloudFormationGraph.getQualifiedId frm.stackId frm.logicalId ≠
      CloudFormationGraph.getQualifiedId dst.stackId dst.logicalId := by
    rw [← hsame]
    exact getQualifiedId_ne_of_logical_ne frm.stackId frm.logicalId dst.logicalId hdiff
  have hxy : (dst.logicalId == frm.logicalId) = false := by
    simpa using (Ne.symm hdiff)
  rcases CloudFormationGraph.moveNode_ok_cases h with ⟨rfl, heq⟩ | ⟨node, hget, _, rfl⟩
  · exact absurd heq hne
  · refine ⟨⟨node, hget, CloudFormationGraph.moveNodeCommit_nodes_moved g frm dst node⟩,
      CloudFormationGraph.moveNodeCommit_nodes_old_gone g frm dst node hne,
      fun k hk1 hk2 =>
        CloudFormationGraph.moveNodeCommit_nodes_rename g frm dst node hsame hdiff k hk1 hk2,
      CloudFormationGraph.moveNodeCommit_edges_rename g frm dst node hsame,
      fun name =>
        CloudFormationGraph.moveNodeCommit_exports_rename g frm dst node hsame hnodup name,
      fun p htrap => upd_no_mention frm.logicalId dst.logicalId hxy p htrap,
      fun p hm => upd_mention_new frm.logicalId dst.logicalId p hm⟩

set_option maxRecDepth 10000 in
/-- Witness for the amended C5 at the concrete rename of the
counterexample graph: the other node's properties go through the rewriter,
and the old address is vacated. -/
theorem claim_C5_amended_witness :
    JsMap.get c5Final.nodes "s1.X" = (JsMap.get c5Graph.nodes "s1.X").map (fun n =>
      if n.stackId == some "s1" then
        { n with properties := updateReferencesInProperties n.properties "Old" "New" }
      else n) ∧
    JsMap.get c5Final.nodes "s1.Old" = none :=
  ⟨(claim_C5_amended c5Graph c5Final ⟨"s1", "Old"⟩ ⟨"s1", "New"⟩ rfl (by decide) (by decide)
      (by decide)).2.2.1 "s1.X" (by decide) (by decide),
   (claim_C5_amended c5Graph c5Final ⟨"s1", "Old"⟩ ⟨"s1", "New"⟩ rfl (by decide) (by decide)
      (by decide)).2.1⟩

/-- The export name `convertReferencesToImports` synthesizes for a target
node: the rendered owning stack id and the local name joined by a dash —
no attribute enters the name. -/
def freshExportName (tn : GraphNode) : String :=
  CloudFormationGraph.stackIdString tn.stackId ++ "-" ++
    CloudFormationGraph.getLogicalId tn.id

/-- The export registration `convertReferencesToImports` synthesizes for a
target node: output id is the local name and the captured value is always
the plain `{ Ref }` object, whatever kind of edge was converted. -/
def freshExportInfo (tn : GraphNode) : ExportInfo :=
  ⟨tn.id, CloudFormationGraph.getLogicalId tn.id,
    some (.obj [("Ref", .str (CloudFormationGraph.getLogicalId tn.id))])⟩

theorem JsMap.set_set_self {α : Type} (m : List (String × α)) (k : String) (v : α) :
    JsMap.set (JsMap.set m k v) k v = JsMap.set m k v := by
  by_cases h : m.any (fun p => p.1 == k) = true
  · have hin : JsMap.set m k v = m.map (fun p => if p.1 == k then (k, v) else p) := by
      rw [JsMap.set, if_pos h]
    have hany : ((JsMap.set m k v).any fun p => p.1 == k) = true := by
      rw [hin]
      obtain ⟨p, hp, hpk⟩ := List.any_eq_true.mp h
      exact List.any_eq_true.mpr
        ⟨(k, v), List.mem_map.mpr ⟨p, hp, by rw [if_pos hpk]⟩, by simp⟩
    rw [JsMap.set, if_pos hany, hin, List.map_map]
    apply List.map_congr_left
    intro p _
    show (if (if p.1 == k then (k, v) else p).1 == k then (k, v)
      else (if p.1 == k then (k, v) else p)) = if p.1 == k then (k, v) else p
    by_cases hpk : (p.1 == k) = true
    · rw [if_pos hpk]
      simp
    · rw [if_neg hpk, if_neg hpk]
  · have hin : JsMap.set m k v = m ++ [(k, v)] := by
      rw [JsMap.set, if_neg h]
    have hany : ((JsMap.set m k v).any fun p => p.1 == k) = true := by
      rw [hin]
      exact List.any_eq_true.mpr ⟨(k, v), by simp, by simp⟩
    rw [JsMap.set, if_pos hany, hin, List.map_append]
    have hm : List.map (fun p => if p.1 == k then (k, v) else p) m = List.map id m := by
      apply List.map_congr_left
      intro p hp
      have hpk : ¬ (p.1 == k) = true := fun hpk => h (List.any_eq_true.mpr ⟨p, hp, hpk⟩)
      rw [if_neg hpk]
      rfl
    rw [hm, List.map_id]
    rw [show List.map (fun p => if p.1 == k then (k, v) else p) [(k, v)] = [(k, v)] from
      by simp]

theorem convertOneReference_of_find_none (ex : List (String × ExportInfo))
    (tn : GraphNode) (h : ex.find? (fun p => p.2.nodeId == tn.id) = none) :
    CloudFormationGraph.convertOneReference ex tn =
      JsMap.set ex (freshExportName tn) (freshExportInfo tn) := by
  simp only [CloudFormationGraph.convertOneReference]
  rw [h]
  rfl

theorem convertOneReference_of_find_some (ex : List (String × ExportInfo))
    (tn : GraphNode) (name : String) (i : ExportInfo)
    (h : ex.find? (fun p => p.2.nodeId == tn.id) = some (name, i))
    (hne : name ≠ "") :
    CloudFormationGraph.convertOneReference ex tn = ex := by
  simp only [CloudFormationGraph.convertOneReference]
  rw [h]
  show (if name == "" then JsMap.set ex (freshExportName tn) (freshExportInfo tn)
    else ex) = ex
  rw [if_neg (by simpa using hne)]

theorem convertOneReference_of_find_empty (ex : List (String × ExportInfo))
    (tn : GraphNode) (i : ExportInfo)
    (h : ex.find? (fun p => p.2.nodeId == tn.id) = some ("", i)) :
    CloudFormationGraph.convertOneReference ex tn =
      JsMap.set ex (freshExportName tn) (freshExportInfo tn) := by
  simp only [CloudFormationGraph.convertOneReference]
  rw [h]
  show (if "" == "" then JsMap.set ex (freshExportName tn) (freshExportInfo tn)
    else ex) = JsMap.set ex (freshExportName tn) (freshExportInfo tn)
  rw [if_pos (by decide)]

theorem convertOneReference_set_self (ex : List (String × ExportInfo))
    (tn : GraphNode) :
    CloudFormationGraph.convertOneReference
        (JsMap.set ex (freshExportName tn) (freshExportInfo tn)) tn =
      JsMap.set ex (freshExportName tn) (freshExportInfo tn) := by
  cases hf : (JsMap.set ex (freshExportName tn) (freshExportInfo tn)).find?
      (fun p => p.2.nodeId == tn.id) with
  | none =>
      rw [convertOneReference_of_find_none _ tn hf]
      exact JsMap.set_set_self ex (freshExportName tn) (freshExportInfo tn)
  | some q =>
      obtain ⟨name, i⟩ := q
      by_cases hn : name = ""
      · subst hn
        rw [convertOneReference_of_find_empty _ tn i hf]
        exact JsMap.set_set_self ex (freshExportName tn) (freshExportInfo tn)
      · exact convertOneReference_of_find_some _ tn name i hf hn

def c3A : GraphNode := { id := "s1.A", type := "T", properties := .null, stackId := some "s1" }

def c3B : GraphNode := { id := "s1.B", type := "T", properties := .null, stackId := some "s1" }

def c3Edge : GraphEdge := { fromId := "s1.A", toId := "s1.B", type := .GET_ATT, crossStack := false }

def c3Graph : CloudFormationGraph :=
  { nodes := [("s1.A", c3A), ("s1.B", c3B)], edges := [c3Edge] }

def c3Final : CloudFormationGraph :=
  { nodes := [("s1.B", c3B), ("s2.A", { id := "s2.A", type := "T", properties := .null, stackId := some "s2" })],
    edges := [{ fromId := "s2.A", toId := "s1.B", type := .IMPORT_VALUE, crossStack := true }],
    exports := [("s1-B", { nodeId := "s1.B", outputId := "B", value := some (.obj [("Ref", .str "B")]) })] }

def c3AttrExport : ExportInfo :=
  { nodeId := "s1.B", outputId := "Arn",
    value := some (.obj [("Fn::GetAtt", .arr [.str "B", .str "Arn"])]) }

def c3Graph2 : CloudFormationGraph :=
  { nodes := [("s1.A", c3A), ("s1.B", c3B)], edges := [c3Edge],
    exports := [("E", c3AttrExport)] }

def c3Final2 : CloudFormationGraph :=
  { nodes := [("s1.B", c3B), ("s2.A", { id := "s2.A", type := "T", properties := .null, stackId := some "s2" })],
    edges := [{ fromId := "s2.A", toId := "s1.B", type := .IMPORT_VALUE, crossStack := true }],
    exports := [("E", c3AttrExport)] }

set_option maxRecDepth 10000 in
/-- Counterexample to claim C3, in two runs of the same relocation.  First
run: the converted edge is an attribute reference (`GET_ATT`), yet the
materialized export's name is `s1-B` — derived from group and local name
only, with no attribute component — and its captured value is the plain
reference object `{ Ref: "B" }`, not an attribute reference.  Second run:
an existing registration exposing the *`Arn` attribute* of the target is
reused unchanged for this whole-node-reference conversion, because the
search matches on the source node id alone and ignores which
attribute-or-none the registration exposes. -/
theorem claim_C3_counterexample :
    (c3Graph.moveNode ⟨"s1", "A"⟩ ⟨"s2", "A"⟩ = .ok c3Final ∧
      c3Edge.type = EdgeType.GET_ATT ∧
      c3Final.exports =
        [("s1-B", { nodeId := "s1.B", outputId := "B", value := some (.obj [("Ref", .str "B")]) })]) ∧
    (c3Graph2.moveNode ⟨"s1", "A"⟩ ⟨"s2", "A"⟩ = .ok c3Final2 ∧
      c3Final2.exports = c3Graph2.exports) := by
  exact ⟨⟨by decide, by decide, by decide⟩, by decide, by decide⟩

theorem convertOneReference_idem (ex : List (String × ExportInfo)) (tn : GraphNode) :
    CloudFormationGraph.convertOneReference
        (CloudFormationGraph.convertOneReference ex tn) tn =
      CloudFormationGraph.convertOneReference ex tn := by
  cases hf : ex.find? (fun p => p.2.nodeId == tn.id) with
  | none =>
      rw [convertOneReference_of_find_none ex tn hf]
      exact convertOneReference_set_self ex tn
  | some q =>
      obtain ⟨name, i⟩ := q
      by_cases hn : name = ""
      · subst hn
        rw [convertOneReference_of_find_empty ex tn i hf]
        exact convertOneReference_set_self ex tn
      · rw [convertOneReference_of_find_some ex tn name i hf hn]
        exact convertOneReference_of_find_some ex tn name i hf hn

/-- Claim C3 (amended): export materialization handles one converted edge
by searching the existing registrations for one whose *source node* is the
edge's target — the exposed output, attribute or captured value play no
part in the match — and reuses the first such registration (provided its
name is non-empty, a truthiness quirk of the source); only when none
exists does it register a fresh export, under the deterministic name
`<rendered group>-<local name>` with no attribute component, whose output
id is the local name and whose captured value is always the plain
`{ Ref }` object, whatever kind of edge was converted.  Materialization is
idempotent per target node, so any number of converting edges against the
same target share one registration — per target node, not per
(target, attribute) pair. -/
theorem claim_C3_amended (ex : List (String × ExportInfo)) (tn : GraphNode) :
    (∀ name i, ex.find? (fun p => p.2.nodeId == tn.id) = some (name, i) → name ≠ "" →
      CloudFormationGraph.convertOneReference ex tn = ex) ∧
    (ex.find? (fun p => p.2.nodeId == tn.id) = none →
      CloudFormationGraph.convertOneReference ex tn =
        JsMap.set ex (freshExportName tn) (freshExportInfo tn)) ∧
    CloudFormationGraph.convertOneReference
        (CloudFormationGraph.convertOneReference ex tn) tn =
      CloudFormationGraph.convertOneReference ex tn ∧
    (∀ mid l, CloudFormationGraph.convertReferencesToImports mid ex (l ++ [tn, tn]) =
      CloudFormationGraph.convertReferencesToImports mid ex (l ++ [tn])) := by
  refine ⟨fun name i hf hn => convertOneReference_of_find_some ex tn name i hf hn,
    fun hf => convertOneReference_of_find_none ex tn hf,
    convertOneReference_idem ex tn, fun mid l => ?_⟩
  simp only [CloudFormationGraph.convertReferencesToImports]
  rw [List.foldl_append, List.foldl_append]
  show CloudFormationGraph.convertOneReference
      (CloudFormationGraph.convertOneReference
        (List.foldl CloudFormationGraph.convertOneReference ex l) tn) tn =
    CloudFormationGraph.convertOneReference
      (List.foldl CloudFormationGraph.convertOneReference ex l) tn
  exact convertOneReference_idem (List.foldl CloudFormationGraph.convertOneReference ex l) tn

def c7A : GraphNode := { id := "s.A", type := "T", properties := .null, stackId := some "s" }

def c7B : GraphNode := { id := "s.B", type := "T", properties := .null, stackId := some "s" }

def c7C : GraphNode := { id := "s.C", type := "T", properties := .null, stackId := some "s" }

def c7Edge : GraphEdge := { fromId := "s.A", toId := "s.C", type := .DEPENDS_ON, crossStack := false }

def c7Graph : CloudFormationGraph :=
  { nodes := [("s.A", c7A), ("s.B", c7B), ("s.C", c7C)], edges := [c7Edge] }

set_option maxRecDepth 20000 in
/-- Counterexample to claim C7's tie-breaking clause: three nodes inserted
in the order `A`, `B`, `C`, with a single dependency of `A` on `C`.  `B`
and `C` have no ordering constraint between them in either direction, and
`B` precedes `C` in insertion order, yet the sort emits `C` before `B`:
the traversal emits in depth-first postorder (each node's dependencies
first), so `C` rides along with `A`'s visit ahead of the untouched `B` —
ties among mutually unconstrained nodes are *not* broken by node insertion
order. -/
theorem claim_C7_counterexample :
    c7Graph.nodes.map Prod.fst = ["s.A", "s.B", "s.C"] ∧
    c7Graph.edges = [c7Edge] ∧ c7Edge.fromId = "s.A" ∧ c7Edge.toId = "s.C" ∧
    CloudFormationGraph.getAllNodesSortedIds c7Graph = .ok ["s.C", "s.A", "s.B"] := by
  exact ⟨by decide, by decide, by decide, by decide, by decide⟩

namespace CloudFormationGraph

theorem visit_zero (g : CloudFormationGraph) (st : SortState) (n : String) :
    visit g 0 st n = .error .outOfFuel := rfl

theorem visit_succ (g : CloudFormationGraph) (fuel : Nat) (st : SortState) (n : String) :
    visit g (fuel + 1) st n =
      if st.temp.contains n then .error .cycleDetected
      else if st.visited.contains n then .ok st
      else
        match visitList g fuel { st with temp := st.temp ++ [n] } (g.getDependencies n) with
        | .error e => .error e
        | .ok st2 =>
            .ok { visited := st2.visited ++ [n]
                  temp := st2.temp.filter (fun x => x != n)
                  result := st2.result ++ [n] } := rfl

theorem visitList_nil (g : CloudFormationGraph) (fuel : Nat) (st : SortState) :
    visitList g fuel st [] = .ok st := rfl

theorem visitList_cons (g : CloudFormationGraph) (fuel : Nat) (st : SortState)
    (d : String) (ds : List String) :
    visitList g fuel st (d :: ds) =
      match visit g fuel st d with
      | .error e => .error e
      | .ok st' => visitList g fuel st' ds := by
  simp only [visitList, List.foldlM_cons]
  cases visit g fuel st d <;> rfl

theorem filter_bne_eq_self {l : List String} {n : String} (h : n ∉ l) :
    l.filter (fun x => x != n) = l := by
  apply List.filter_eq_self.mpr
  intro x hx
  have : x ≠ n := fun he => h (he ▸ hx)
  simpa using this

theorem visit_temp_eq (g : CloudFormationGraph) : ∀ fuel : Nat,
    (∀ st n st', visit g fuel st n = .ok st' → st'.temp = st.temp) ∧
    (∀ st deps st', visitList g fuel st deps = .ok st' → st'.temp = st.temp) := by
  intro fuel
  induction fuel with
  | zero =>
      constructor
      · intro st n st' h
        rw [visit_zero] at h
        exact Except.noConfusion h
      · intro st deps
        induction deps generalizing st with
        | nil =>
            intro st' h
            rw [visitList_nil] at h
            cases h
            rfl
        | cons d ds _ =>
            intro st' h
            rw [visitList_cons, visit_zero] at h
            exact Except.noConfusion h
  | succ fuel ih =>
      have hv : ∀ st n st', visit g (fuel + 1) st n = .ok st' → st'.temp = st.temp := by
        intro st n st' h
        rw [visit_succ] at h
        by_cases h1 : st.temp.contains n = true
        · rw [if_pos h1] at h
          exact Except.noConfusion h
        · rw [if_neg h1] at h
          by_cases h2 : st.visited.contains n = true
          · rw [if_pos h2] at h
            cases h
            rfl
          · rw [if_neg h2] at h
            cases hl : visitList g fuel { st with temp := st.temp ++ [n] }
                (g.getDependencies n) with
            | error e =>
                rw [hl] at h
                exact Except.noConfusion h
            | ok st2 =>
                rw [hl] at h
                cases h
                have h2t : st2.temp = st.temp ++ [n] := ih.2 _ _ _ hl
                show st2.temp.filter (fun x => x != n) = st.temp
                have hnn : n ∉ st.temp := fun hm => h1 (List.elem_eq_true_of_mem hm)
                rw [h2t, List.filter_append, filter_bne_eq_self hnn]
                rw [show ([n].filter (fun x => x != n)) = [] from by simp,
                  List.append_nil]
      refine ⟨hv, ?_⟩
      intro st deps
      induction deps generalizing st with
      | nil =>
          intro st' h
          rw [visitList_nil] at h
          cases h
          rfl
      | cons d ds ihd =>
          intro st' h
          rw [visitList_cons] at h
          cases hvd : visit g (fuel + 1) st d with
          | error e =>
              rw [hvd] at h
              exact Except.noConfusion h
          | ok stm =>
              rw [hvd] at h
              exact (ihd stm st' h).trans (hv st d stm hvd)

end CloudFormationGraph


namespace CloudFormationGraph

theorem key_mem_universe (g : CloudFormationGraph) (k : String)
    (h : k ∈ g.nodes.map Prod.fst) : k ∈ sortUniverse g :=
  List.mem_append_left _ (by simpa using h)

theorem dep_mem_universe (g : CloudFormationGraph) (n d : String)
    (h : d ∈ g.getDependencies n) : d ∈ sortUniverse g := by
  simp only [getDependencies, List.mem_map, List.mem_filter] at h
  obtain ⟨e, ⟨he, _⟩, rfl⟩ := h
  exact List.mem_append_right _ (List.mem_map.mpr ⟨e, he, rfl⟩)

theorem temp_length_le (g : CloudFormationGraph) (l : List String)
    (hnd : l.Nodup) (hsub : ∀ x ∈ l, x ∈ sortUniverse g) :
    l.length ≤ (sortUniverse g).length :=
  (hnd.subperm (fun x hx => hsub x hx)).length_le

theorem visit_no_fuel (g : CloudFormationGraph) : ∀ fuel : Nat,
    (∀ st n, st.temp.Nodup → (∀ x ∈ st.temp, x ∈ sortUniverse g) →
      n ∈ sortUniverse g →
      (sortUniverse g).length + 1 ≤ fuel + st.temp.length →
      visit g fuel st n ≠ .error .outOfFuel) ∧
    (∀ st deps, st.temp.Nodup → (∀ x ∈ st.temp, x ∈ sortUniverse g) →
      (∀ d ∈ deps, d ∈ sortUniverse g) →
      (sortUniverse g).length + 1 ≤ fuel + st.temp.length →
      visitList g fuel st deps ≠ .error .outOfFuel) := by
  intro fuel
  induction fuel with
  | zero =>
      have habs : ∀ st : SortState, st.temp.Nodup →
          (∀ x ∈ st.temp, x ∈ sortUniverse g) →
          (sortUniverse g).length + 1 ≤ 0 + st.temp.length → False := by
        intro st hnd hsub hlen
        have h1 := temp_length_le g st.temp hnd hsub
        omega
      exact ⟨fun st n hnd hsub _ hlen _ => habs st hnd hsub hlen,
        fun st deps hnd hsub _ hlen _ => habs st hnd hsub hlen⟩
  | succ fuel ih =>
      have hv : ∀ st n, st.temp.Nodup → (∀ x ∈ st.temp, x ∈ sortUniverse g) →
          n ∈ sortUniverse g →
          (sortUniverse g).length + 1 ≤ (fuel + 1) + st.temp.length →
          visit g (fuel + 1) st n ≠ .error .outOfFuel := by
        intro st n hnd hsub hnu hlen
        rw [visit_succ]
        by_cases h1 : st.temp.contains n = true
        · rw [if_pos h1]
          intro hc
          exact SortOutcome.noConfusion (Except.error.inj hc)
        · rw [if_neg h1]
          by_cases h2 : st.visited.contains n = true
          · rw [if_pos h2]
            exact fun hc => Except.noConfusion hc
          · rw [if_neg h2]
            have hnn : n ∉ st.temp := fun hm => h1 (List.elem_eq_true_of_mem hm)
            have hnd' : (st.temp ++ [n]).Nodup := by
              simp [List.nodup_append, hnd, hnn]
            have hsub' : ∀ x ∈ st.temp ++ [n], x ∈ sortUniverse g := by
              intro x hx
              rcases List.mem_append.mp hx with hx | hx
              · exact hsub x hx
              · rcases List.mem_singleton.mp hx with rfl
                exact hnu
            have hlen' : (sortUniverse g).length + 1 ≤
                fuel + (st.temp ++ [n]).length := by
              rw [List.length_append, List.length_singleton]
              omega
            have hno := ih.2 { st with temp := st.temp ++ [n] }
              (g.getDependencies n) hnd' hsub'
              (fun d hd => dep_mem_universe g n d hd) hlen'
            cases hl : visitList g fuel { st with temp := st.temp ++ [n] }
                (g.getDependencies n) with
            | error e =>
                intro hc
                cases e with
                | cycleDetected => exact SortOutcome.noConfusion (Except.error.inj hc)
                | outOfFuel => exact hno hl
            | ok st2 => exact fun hc => Except.noConfusion hc
      refine ⟨hv, ?_⟩
      intro st deps
      induction deps generalizing st with
      | nil =>
          intro _ _ _ _ hc
          rw [visitList_nil] at hc
          exact Except.noConfusion hc
      | cons d ds ihd =>
          intro hnd hsub hdeps hlen
          rw [visitList_cons]
          cases hvd : visit g (fuel + 1) st d with
          | error e =>
              intro hc
              cases e with
              | cycleDetected => exact SortOutcome.noConfusion (Except.error.inj hc)
              | outOfFuel =>
                  exact hv st d hnd hsub (hdeps d (List.mem_cons_self d ds)) hlen hvd
          | ok stm =>
              have hteq : stm.temp = st.temp := (visit_temp_eq g (fuel + 1)).1 st d stm hvd
              exact ihd stm (hteq ▸ hnd) (hteq ▸ hsub)
                (fun x hx => hdeps x (List.mem_cons_of_mem d hx)) (hteq ▸ hlen)

end CloudFormationGraph

namespace CloudFormationGraph

/-- The dependency step relation of the traversal: `b` is among
`getDependencies a`, i.e. some edge leads from `a` to `b`. -/
def depStep (g : CloudFormationGraph) (a b : String) : Prop :=
  b ∈ g.getDependencies a

theorem visit_cycle (g : CloudFormationGraph) : ∀ fuel : Nat,
    (∀ st n, (∀ x ∈ st.temp, Relation.TransGen (depStep g) x n) →
      visit g fuel st n = .error .cycleDetected →
      ∃ a, Relation.TransGen (depStep g) a a) ∧
    (∀ st deps, (∀ d ∈ deps, ∀ x ∈ st.temp, Relation.TransGen (depStep g) x d) →
      visitList g fuel st deps = .error .cycleDetected →
      ∃ a, Relation.TransGen (depStep g) a a) := by
  intro fuel
  induction fuel with
  | zero =>
      constructor
      · intro st n _ h
        rw [visit_zero] at h
        exact SortOutcome.noConfusion (Except.error.inj h)
      · intro st deps
        induction deps generalizing st with
        | nil =>
            intro _ h
            rw [visitList_nil] at h
            exact Except.noConfusion h
        | cons d ds _ =>
            intro _ h
            rw [visitList_cons, visit_zero] at h
            exact SortOutcome.noConfusion (Except.error.inj h)
  | succ fuel ih =>
      have hv : ∀ st n, (∀ x ∈ st.temp, Relation.TransGen (depStep g) x n) →
          visit g (fuel + 1) st n = .error .cycleDetected →
          ∃ a, Relation.TransGen (depStep g) a a := by
        intro st n hpath h
        rw [visit_succ] at h
        by_cases h1 : st.temp.contains n = true
        · exact ⟨n, hpath n (List.mem_of_elem_eq_true h1)⟩
        · rw [if_neg h1] at h
          by_cases h2 : st.visited.contains n = true
          · rw [if_pos h2] at h
            exact Except.noConfusion h
          · rw [if_neg h2] at h
            cases hl : visitList g fuel { st with temp := st.temp ++ [n] }
                (g.getDependencies n) with
            | error e =>
                rw [hl] at h
                have he : e = SortOutcome.cycleDetected := Except.error.inj h
                subst he
                refine ih.2 _ _ ?_ hl
                intro d hd x hx
                rcases List.mem_append.mp hx with hx | hx
                · exact Relation.TransGen.tail (hpath x hx) hd
                · rcases List.mem_singleton.mp hx with rfl
                  exact Relation.TransGen.single hd
            | ok st2 =>
                rw [hl] at h
                exact Except.noConfusion h
      refine ⟨hv, ?_⟩
      intro st deps
      induction deps generalizing st with
      | nil =>
          intro _ h
          rw [visitList_nil] at h
          exact Except.noConfusion h
      | cons d ds ihd =>
          intro hpath h
          rw [visitList_cons] at h
          cases hvd : visit g (fuel + 1) st d with
          | error e =>
              rw [hvd] at h
              have he : e = SortOutcome.cycleDetected := Except.error.inj h
              subst he
              exact hv st d (hpath d (List.mem_cons_self d ds)) hvd
          | ok stm =>
              rw [hvd] at h
              have hteq : stm.temp = st.temp := (visit_temp_eq g (fuel + 1)).1 st d stm hvd
              refine ihd stm ?_ h
              intro d' hd' x hx
              exact hpath d' (List.mem_cons_of_mem d hd') x (hteq ▸ hx)

end CloudFormationGraph

namespace CloudFormationGraph

/-- An emitted prefix is topologically closed: every emitted node's every
dependency is emitted strictly before it (the two-element sublist states
the strict before-ness). -/
def topoClosed (g : CloudFormationGraph) (l : List String) : Prop :=
  ∀ a ∈ l, ∀ b ∈ g.getDependencies a, [b, a].Sublist l

theorem visit_sound (g : CloudFormationGraph) : ∀ fuel : Nat,
    (∀ st n st', visit g fuel st n = .ok st' →
      ∃ new, st'.visited = st.visited ++ new ∧ st'.result = st.result ++ new ∧
        (∀ x ∈ new, x ∉ st.temp) ∧ (∀ x ∈ new, x ∉ st.visited) ∧
        (∀ x ∈ new, x = n ∨ ∃ a, x ∈ g.getDependencies a) ∧ new.Nodup ∧
        n ∈ st'.visited ∧ (topoClosed g st.visited → topoClosed g st'.visited)) ∧
    (∀ st deps st', visitList g fuel st deps = .ok st' →
      ∃ new, st'.visited = st.visited ++ new ∧ st'.result = st.result ++ new ∧
        (∀ x ∈ new, x ∉ st.temp) ∧ (∀ x ∈ new, x ∉ st.visited) ∧
        (∀ x ∈ new, x ∈ deps ∨ ∃ a, x ∈ g.getDependencies a) ∧ new.Nodup ∧
        (∀ d ∈ deps, d ∈ st'.visited) ∧
        (topoClosed g st.visited → topoClosed g st'.visited)) := by
  intro fuel
  induction fuel with
  | zero =>
      constructor
      · intro st n st' h
        rw [visit_zero] at h
        exact Except.noConfusion h
      · intro st deps
        induction deps generalizing st with
        | nil =>
            intro st' h
            rw [visitList_nil] at h
            cases h
            exact ⟨[], (List.append_nil _).symm, (List.append_nil _).symm,
              by simp, by simp, by simp, List.nodup_nil, by simp, fun hc => hc⟩
        | cons d ds _ =>
            intro st' h
            rw [visitList_cons, visit_zero] at h
            exact Except.noConfusion h
  | succ fuel ih =>
      have hv : ∀ st n st', visit g (fuel + 1) st n = .ok st' →
          ∃ new, st'.visited = st.visited ++ new ∧ st'.result = st.result ++ new ∧
            (∀ x ∈ new, x ∉ st.temp) ∧ (∀ x ∈ new, x ∉ st.visited) ∧
            (∀ x ∈ new, x = n ∨ ∃ a, x ∈ g.getDependencies a) ∧ new.Nodup ∧
            n ∈ st'.visited ∧ (topoClosed g st.visited → topoClosed g st'.visited) := by
        intro st n st' h
        rw [visit_succ] at h
        by_cases h1 : st.temp.contains n = true
        · rw [if_pos h1] at h
          exact Except.noConfusion h
        · rw [if_neg h1] at h
          by_cases h2 : st.visited.contains n = true
          · rw [if_pos h2] at h
            cases h
            exact ⟨[], (List.append_nil _).symm, (List.append_nil _).symm,
              by simp, by simp, by simp, List.nodup_nil,
              List.mem_of_elem_eq_true h2, fun hc => hc⟩
          · rw [if_neg h2] at h
            cases hl : visitList g fuel { st with temp := st.temp ++ [n] }
                (g.getDependencies n) with
            | error e =>
                rw [hl] at h
                exact Except.noConfusion h
            | ok st2 =>
                rw [hl] at h
                cases h
                obtain ⟨new2, hvis, hres, htempnin, hvisnin, hprov, hnd2, hdepsvis,
                  hclosed⟩ := ih.2 _ _ _ hl
                have hnvis : n ∉ st.visited := fun hm => h2 (List.elem_eq_true_of_mem hm)
                have hntemp : n ∉ st.temp := fun hm => h1 (List.elem_eq_true_of_mem hm)
                refine ⟨new2 ++ [n], ?_, ?_, ?_, ?_, ?_, ?_, ?_, ?_⟩
                · show st2.visited ++ [n] = st.visited ++ (new2 ++ [n])
                  rw [hvis]
                  exact (List.append_assoc _ _ _)
                · show st2.result ++ [n] = st.result ++ (new2 ++ [n])
                  rw [hres]
                  exact (List.append_assoc _ _ _)
                · intro x hx
                  rcases List.mem_append.mp hx with hx | hx
                  · exact fun hm => htempnin x hx (List.mem_append_left _ hm)
                  · rcases List.mem_singleton.mp hx with rfl
                    exact hntemp
                · intro x hx
                  rcases List.mem_append.mp hx with hx | hx
                  · exact hvisnin x hx
                  · rcases List.mem_singleton.mp hx with rfl
                    exact hnvis
                · intro x hx
                  rcases List.mem_append.mp hx with hx | hx
                  · rcases hprov x hx with hx' | hx'
                    · exact Or.inr ⟨n, hx'⟩
                    · exact Or.inr hx'
                  · rcases List.mem_singleton.mp hx with rfl
                    exact Or.inl rfl
                · rw [List.nodup_append]
                  refine ⟨hnd2, by simp, ?_⟩
                  intro x hx hxn
                  rcases List.mem_singleton.mp hxn with rfl
                  exact htempnin x hx (List.mem_append_right _ (by simp))
                · show n ∈ st2.visited ++ [n]
                  exact List.mem_append_right _ (by simp)
                · intro hcst
                  have hc2 := hclosed hcst
                  intro a ha b hb
                  show [b, a].Sublist (st2.visited ++ [n])
                  rcases List.mem_append.mp ha with ha | ha
                  · exact (hc2 a ha b hb).trans (List.sublist_append_left _ _)
                  · rcases List.mem_singleton.mp ha with rfl
                    have hbm : b ∈ st2.visited := hdepsvis b hb
                    exact List.Sublist.append (List.singleton_sublist.mpr hbm)
                      (List.Sublist.refl [a])
      refine ⟨hv, ?_⟩
      intro st deps
      induction deps generalizing st with
      | nil =>
          intro st' h
          rw [visitList_nil] at h
          cases h
          exact ⟨[], (List.append_nil _).symm, (List.append_nil _).symm,
            by simp, by simp, by simp, List.nodup_nil, by simp, fun hc => hc⟩
      | cons d ds ihd =>
          intro st' h
          rw [visitList_cons] at h
          cases hvd : visit g (fuel + 1) st d with
          | error e =>
              rw [hvd] at h
              exact Except.noConfusion h
          | ok stm =>
              rw [hvd] at h
              obtain ⟨newd, hvisd, hresd, htempd, hvisnd, hprovd, hndd, hdmem,
                hcld⟩ := hv st d stm hvd
              obtain ⟨newds, hvisds, hresds, htempds, hvisnds, hprovds, hndds, hdsmem,
                hclds⟩ := ihd stm st' h
              have hteq : stm.temp = st.temp := (visit_temp_eq g (fuel + 1)).1 st d stm hvd
              refine ⟨newd ++ newds, ?_, ?_, ?_, ?_, ?_, ?_, ?_, ?_⟩
              · rw [hvisds, hvisd]
                exact List.append_assoc _ _ _
              · rw [hresds, hresd]
                exact List.append_assoc _ _ _
              · intro x hx
                rcases List.mem_append.mp hx with hx | hx
                · exact htempd x hx
                · exact fun hm => htempds x hx (hteq ▸ hm)
              · intro x hx
                rcases List.mem_append.mp hx with hx | hx
                · exact hvisnd x hx
                · intro hm
                  exact hvisnds x hx (hvisd ▸ List.mem_append_left _ hm)
              · intro x hx
                rcases List.mem_append.mp hx with hx | hx
                · rcases hprovd x hx with rfl | hx'
                  · exact Or.inl (List.mem_cons_self _ _)
                  · exact Or.inr hx'
                · rcases hprovds x hx with hx' | hx'
                  · exact Or.inl (List.mem_cons_of_mem d hx')
                  · exact Or.inr hx'
              · rw [List.nodup_append]
                refine ⟨hndd, hndds, ?_⟩
                intro x hxd hxds
                exact hvisnds x hxds (hvisd ▸ List.mem_append_right _ hxd)
              · intro d' hd'
                rcases List.mem_cons.mp hd' with rfl | hd'
                · rw [hvisds]
                  exact List.mem_append_left _ hdmem
                · exact hdsmem d' hd'
              · exact fun hcst => hclds (hcld hcst)

end CloudFormationGraph

namespace CloudFormationGraph

/-- The body of `getAllNodesSorted`'s outer `for` loop over the node keys:
skip already-finished nodes, visit the rest. -/
def sortStep (g : CloudFormationGraph) (st : SortState) (nodeId : String) :
    Except SortOutcome SortState :=
  if st.visited.contains nodeId then Except.ok st
  else visit g (sortFuel g) st nodeId

theorem getAllNodesSortedIds_eq (g : CloudFormationGraph) :
    getAllNodesSortedIds g =
      match (g.nodes.map (fun p => p.1)).foldlM (sortStep g) ⟨[], [], []⟩ with
      | .error e => .error e
      | .ok st => .ok st.result := rfl

theorem foldlM_sortStep_cons (g : CloudFormationGraph) (st : SortState)
    (k : String) (ks : List String) :
    (k :: ks).foldlM (sortStep g) st =
      match sortStep g st k with
      | .error e => .error e
      | .ok st' => ks.foldlM (sortStep g) st' := by
  simp only [List.foldlM_cons]
  cases sortStep g st k <;> rfl

theorem outer_no_fuel (g : CloudFormationGraph) : ∀ (keys : List String) (st : SortState),
    st.temp = [] → (∀ k ∈ keys, k ∈ sortUniverse g) →
    keys.foldlM (sortStep g) st ≠ .error .outOfFuel := by
  intro keys
  induction keys with
  | nil =>
      intro st _ _ hc
      rw [List.foldlM_nil] at hc
      exact Except.noConfusion hc
  | cons k ks ih =>
      intro st htemp hkeys
      rw [foldlM_sortStep_cons]
      by_cases hc : st.visited.contains k = true
      · rw [sortStep, if_pos hc]
        exact ih st htemp (fun x hx => hkeys x (List.mem_cons_of_mem k hx))
      · rw [sortStep, if_neg hc]
        have hnofuel := (visit_no_fuel g (sortFuel g)).1 st k
          (by rw [htemp]; exact List.nodup_nil)
          (by rw [htemp]; exact fun x hx => absurd hx (List.not_mem_nil x))
          (hkeys k (List.mem_cons_self k ks))
          (by rw [htemp, sortFuel, List.length_nil])
        cases hv : visit g (sortFuel g) st k with
        | error e =>
            intro hcon
            have he : e = SortOutcome.outOfFuel := Except.error.inj hcon
            subst he
            exact hnofuel hv
        | ok st1 =>
            have ht1 : st1.temp = st.temp := (visit_temp_eq g (sortFuel g)).1 st k st1 hv
            exact ih st1 (ht1.trans htemp)
              (fun x hx => hkeys x (List.mem_cons_of_mem k hx))

theorem outer_cycle (g : CloudFormationGraph) : ∀ (keys : List String) (st : SortState),
    st.temp = [] →
    keys.foldlM (sortStep g) st = .error .cycleDetected →
    ∃ a, Relation.TransGen (depStep g) a a := by
  intro keys
  induction keys with
  | nil =>
      intro st _ hc
      rw [List.foldlM_nil] at hc
      exact Except.noConfusion hc
  | cons k ks ih =>
      intro st htemp h
      rw [foldlM_sortStep_cons] at h
      by_cases hc : st.visited.contains k = true
      · rw [sortStep, if_pos hc] at h
        exact ih st htemp h
      · rw [sortStep, if_neg hc] at h
        cases hv : visit g (sortFuel g) st k with
        | error e =>
            rw [hv] at h
            have he : e = SortOutcome.cycleDetected := Except.error.inj h
            subst he
            exact (visit_cycle g (sortFuel g)).1 st k
              (by rw [htemp]; exact fun x hx => absurd hx (List.not_mem_nil x)) hv
        | ok st1 =>
            rw [hv] at h
            have ht1 : st1.temp = st.temp := (visit_temp_eq g (sortFuel g)).1 st k st1 hv
            exact ih st1 (ht1.trans htemp) h

theorem outer_sound (g : CloudFormationGraph) : ∀ (keys : List String) (st st' : SortState),
    keys.foldlM (sortStep g) st = .ok st' →
    ∃ new, st'.visited = st.visited ++ new ∧ st'.result = st.result ++ new ∧
      (∀ x ∈ new, x ∉ st.visited) ∧
      (∀ x ∈ new, x ∈ keys ∨ ∃ a, x ∈ g.getDependencies a) ∧ new.Nodup ∧
      (∀ k ∈ keys, k ∈ st'.visited) ∧
      (topoClosed g st.visited → topoClosed g st'.visited) ∧ st'.temp = st.temp := by
  intro keys
  induction keys with
  | nil =>
      intro st st' h
      rw [List.foldlM_nil] at h
      cases h
      exact ⟨[], (List.append_nil _).symm, (List.append_nil _).symm,
        by simp, by simp, List.nodup_nil, by simp, fun hc => hc, rfl⟩
  | cons k ks ih =>
      intro st st' h
      rw [foldlM_sortStep_cons] at h
      by_cases hc : st.visited.contains k = true
      · rw [sortStep, if_pos hc] at h
        obtain ⟨new, hvis, hres, hnin, hprov, hnd, hmem, hcl, htemp⟩ := ih st st' h
        refine ⟨new, hvis, hres, hnin, ?_, hnd, ?_, hcl, htemp⟩
        · intro x hx
          rcases hprov x hx with hx' | hx'
          · exact Or.inl (List.mem_cons_of_mem k hx')
          · exact Or.inr hx'
        · intro k' hk'
          rcases List.mem_cons.mp hk' with rfl | hk'
          · rw [hvis]
            exact List.mem_append_left _ (List.mem_of_elem_eq_true hc)
          · exact hmem k' hk'
      · rw [sortStep, if_neg hc] at h
        cases hv : visit g (sortFuel g) st k with
        | error e =>
            rw [hv] at h
            exact Except.noConfusion h
        | ok stm =>
            rw [hv] at h
            obtain ⟨newv, hvisv, hresv, _, hvisnv, hprovv, hndv, hkmem,
              hclv⟩ := (visit_sound g (sortFuel g)).1 st k stm hv
            obtain ⟨newks, hvisks, hresks, hninks, hprovks, hndks, hmemks, hclks,
              htempks⟩ := ih stm st' h
            have hteq : stm.temp = st.temp := (visit_temp_eq g (sortFuel g)).1 st k stm hv
            refine ⟨newv ++ newks, ?_, ?_, ?_, ?_, ?_, ?_, ?_, ?_⟩
            · rw [hvisks, hvisv]
              exact List.append_assoc _ _ _
            · rw [hresks, hresv]
              exact List.append_assoc _ _ _
            · intro x hx
              rcases List.mem_append.mp hx with hx | hx
              · exact hvisnv x hx
              · intro hm
                exact hninks x hx (hvisv ▸ List.mem_append_left _ hm)
            · intro x hx
              rcases List.mem_append.mp hx with hx | hx
              · rcases hprovv x hx with rfl | hx'
                · exact Or.inl (List.mem_cons_self _ _)
                · exact Or.inr hx'
              · rcases hprovks x hx with hx' | hx'
                · exact Or.inl (List.mem_cons_of_mem k hx')
                · exact Or.inr hx'
            · rw [List.nodup_append]
              refine ⟨hndv, hndks, ?_⟩
              intro x hxv hxks
              exact hninks x hxks (hvisv ▸ List.mem_append_right _ hxv)
            · intro k' hk'
              rcases List.mem_cons.mp hk' with rfl | hk'
              · rw [hvisks]
                exact List.mem_append_left _ hkmem
              · exact hmemks k' hk'
            · exact fun hcst => hclks (hclv hcst)
            · exact htempks.trans hteq

end CloudFormationGraph

namespace JsMap

theorem get_isSome_of_mem_keys (m : List (String × α)) (k : String)
    (h : k ∈ m.map Prod.fst) : (get m k).isSome = true := by
  have hhas : has m k = true := by
    obtain ⟨p, hp, rfl⟩ := List.mem_map.mp h
    exact List.any_eq_true.mpr ⟨p, hp, by simp⟩
  cases hg : get m k with
  | none =>
      rw [get_eq_none_iff] at hg
      rw [hg] at hhas
      exact Bool.noConfusion hhas
  | some v => rfl

end JsMap

namespace CloudFormationGraph

theorem mem_getDependencies (g : CloudFormationGraph) (a b : String) :
    b ∈ g.getDependencies a ↔ ∃ e, e ∈ g.edges ∧ e.fromId = a ∧ e.toId = b := by
  simp only [getDependencies, List.mem_map, List.mem_filter]
  constructor
  · rintro ⟨e, ⟨he, heq⟩, rfl⟩
    exact ⟨e, he, by simpa using heq, rfl⟩
  · rintro ⟨e, he, h1, rfl⟩
    exact ⟨e, ⟨he, by simpa using h1⟩, rfl⟩

theorem pair_sublist_indexOf : ∀ (l : List String) (b a : String), l.Nodup →
    [b, a].Sublist l → l.indexOf b < l.indexOf a := by
  intro l
  induction l with
  | nil =>
      intro b a _ h
      exact absurd (List.sublist_nil.mp h) (by simp)
  | cons x l ih =>
      intro b a hnd h
      obtain ⟨hx, hndl⟩ := List.nodup_cons.mp hnd
      cases h with
      | cons _ h' =>
          have hb : b ∈ l := h'.subset (by simp)
          have ha : a ∈ l := h'.subset (by simp)
          have hxb : x ≠ b := fun he => hx (he ▸ hb)
          have hxa : x ≠ a := fun he => hx (he ▸ ha)
          rw [List.indexOf_cons_ne l hxb, List.indexOf_cons_ne l hxa]
          exact Nat.succ_lt_succ (ih b a hndl h')
      | cons₂ _ h' =>
          have ha : a ∈ l := List.singleton_sublist.mp h'
          have hba : x ≠ a := fun he => hx (he ▸ ha)
          rw [List.indexOf_cons_self, List.indexOf_cons_ne l hba]
          exact Nat.succ_pos _

theorem topo_no_cycle (g : CloudFormationGraph) (ids : List String)
    (hnd : ids.Nodup)
    (hedge : ∀ a b, depStep g a b → [b, a].Sublist ids) :
    ¬ ∃ a, Relation.TransGen (depStep g) a a := by
  rintro ⟨a, hcyc⟩
  have key : ∀ x y, Relation.TransGen (depStep g) x y →
      ids.indexOf y < ids.indexOf x := by
    intro x y h
    induction h with
    | single hr => exact pair_sublist_indexOf ids _ _ hnd (hedge _ _ hr)
    | tail hsteps hr ih =>
        exact lt_trans (pair_sublist_indexOf ids _ _ hnd (hedge _ _ hr)) ih
  exact absurd (key a a hcyc) (lt_irrefl _)

end CloudFormationGraph

/-- Claim C7 (amended): for a graph whose node keys are unique and whose
edges join existing nodes, `getAllNodesSorted` never exhausts the fuel of
this embedding (the recursion really terminates); when it succeeds, the
emitted ids are a permutation of the node keys in which *every* edge's
target — dependencies of any kind, `STRUCTURAL_DEPENDENCY` included — is
emitted strictly before its source, every emitted id resolves to a node
(the non-null assertion of the source cannot fire), and the node list is
the id list resolved through the node map; and it throws `CycleDetected`
exactly when the dependency relation has a cycle.  The all-or-nothing
clause is inherent here: a thrown error propagates out of the method, so
no partial result is returned.  The tie-breaking clause of the original
claim is what fails: the traversal emits depth-first postorder, not
insertion order among unconstrained nodes. -/
theorem claim_C7_amended (g : CloudFormationGraph)
    (hknodup : (g.nodes.map Prod.fst).Nodup)
    (hwf : ∀ e ∈ g.edges, e.fromId ∈ g.nodes.map Prod.fst ∧
      e.toId ∈ g.nodes.map Prod.fst) :
    CloudFormationGraph.getAllNodesSortedIds g ≠ .error .outOfFuel ∧
    (∀ ids, CloudFormationGraph.getAllNodesSortedIds g = .ok ids →
      ids.Perm (g.nodes.map Prod.fst) ∧
      (∀ e ∈ g.edges, [e.toId, e.fromId].Sublist ids) ∧
      g.getAllNodesSorted = .ok (ids.map (fun i => JsMap.get g.nodes i)) ∧
      (∀ i ∈ ids, (JsMap.get g.nodes i).isSome = true)) ∧
    ((∃ a, Relation.TransGen (CloudFormationGraph.depStep g) a a) ↔
      CloudFormationGraph.getAllNodesSortedIds g = .error .cycleDetected) := by
  have hofuel : CloudFormationGraph.getAllNodesSortedIds g ≠ .error .outOfFuel := by
    rw [CloudFormationGraph.getAllNodesSortedIds_eq]
    cases hfold : (g.nodes.map (fun p => p.1)).foldlM (CloudFormationGraph.sortStep g)
        ⟨[], [], []⟩ with
    | error e =>
        intro hcon
        have he : e = CloudFormationGraph.SortOutcome.outOfFuel := Except.error.inj hcon
        subst he
        exact CloudFormationGraph.outer_no_fuel g _ _ rfl
          (fun k hk => CloudFormationGraph.key_mem_universe g k hk) hfold
    | ok st => exact fun hcon => Except.noConfusion hcon
  have hok : ∀ ids, CloudFormationGraph.getAllNodesSortedIds g = .ok ids →
      ids.Perm (g.nodes.map Prod.fst) ∧
      (∀ e ∈ g.edges, [e.toId, e.fromId].Sublist ids) ∧
      g.getAllNodesSorted = .ok (ids.map (fun i => JsMap.get g.nodes i)) ∧
      (∀ i ∈ ids, (JsMap.get g.nodes i).isSome = true) := by
    intro ids hids
    have hids' := hids
    rw [CloudFormationGraph.getAllNodesSortedIds_eq] at hids'
    cases hfold : (g.nodes.map (fun p => p.1)).foldlM (CloudFormationGraph.sortStep g)
        ⟨[], [], []⟩ with
    | error e =>
        rw [hfold] at hids'
        exact Except.noConfusion hids'
    | ok st =>
        rw [hfold] at hids'
        have hres_ids : st.result = ids := Except.ok.inj hids'
        obtain ⟨new, hvis, hres, hnin, hprov, hnd, hmem, hcl, htemp⟩ :=
          CloudFormationGraph.outer_sound g _ _ _ hfold
        have hveq : st.visited = new := by
          rw [hvis]
          exact List.nil_append new
        have hreq : st.result = new := by
          rw [hres]
          exact List.nil_append new
        have hrv : ids = st.visited := by
          rw [← hres_ids, hreq, hveq]
        have hclosed : CloudFormationGraph.topoClosed g st.visited :=
          hcl (fun a ha => absurd ha (List.not_mem_nil a))
        have hsub1 : ∀ x ∈ ids, x ∈ g.nodes.map Prod.fst := by
          intro x hx
          rw [hrv, hveq] at hx
          rcases hprov x hx with hx' | ⟨a, hdep⟩
          · exact hx'
          · obtain ⟨e, he, _, rfl⟩ := (CloudFormationGraph.mem_getDependencies g a x).mp hdep
            exact (hwf e he).2
        have hsub2 : ∀ k ∈ g.nodes.map Prod.fst, k ∈ ids := by
          intro k hk
          rw [hrv]
          exact hmem k hk
        have hndids : ids.Nodup := by
          rw [hrv, hveq]
          exact hnd
        have hperm : ids.Perm (g.nodes.map Prod.fst) :=
          (hndids.subperm (fun x hx => hsub1 x hx)).antisymm
            (hknodup.subperm (fun x hx => hsub2 x hx))
        have hedges : ∀ e ∈ g.edges, [e.toId, e.fromId].Sublist ids := by
          intro e he
          have hdep : e.toId ∈ g.getDependencies e.fromId :=
            (CloudFormationGraph.mem_getDependencies g e.fromId e.toId).mpr ⟨e, he, rfl, rfl⟩
          have hfr : e.fromId ∈ st.visited := by
            rw [← hrv]
            exact hsub2 e.fromId (hwf e he).1
          have hsl := hclosed e.fromId hfr e.toId hdep
          rw [← hrv] at hsl
          exact hsl
        refine ⟨hperm, hedges, ?_, ?_⟩
        · simp only [CloudFormationGraph.getAllNodesSorted]
          rw [hids]
        · intro i hi
          exact JsMap.get_isSome_of_mem_keys g.nodes i (hsub1 i hi)
  refine ⟨hofuel, hok, ?_, ?_⟩
  · rintro ⟨a, hcyc⟩
    cases hout : CloudFormationGraph.getAllNodesSortedIds g with
    | ok ids =>
        obtain ⟨hperm, hedges, _, _⟩ := hok ids hout
        have hnd : ids.Nodup := hperm.nodup_iff.mpr hknodup
        have hedge : ∀ x y, CloudFormationGraph.depStep g x y → [y, x].Sublist ids := by
          intro x y hxy
          obtain ⟨e, he, h1, h2⟩ := (CloudFormationGraph.mem_getDependencies g x y).mp hxy
          have hsl := hedges e he
          rw [h1, h2] at hsl
          exact hsl
        exact absurd ⟨a, hcyc⟩ (CloudFormationGraph.topo_no_cycle g ids hnd hedge)
    | error e =>
        cases e with
        | cycleDetected => rfl
        | outOfFuel => exact absurd hout hofuel
  · intro herr
    rw [CloudFormationGraph.getAllNodesSortedIds_eq] at herr
    cases hfold : (g.nodes.map (fun p => p.1)).foldlM (CloudFormationGraph.sortStep g)
        ⟨[], [], []⟩ with
    | error e =>
        rw [hfold] at herr
        have he : e = CloudFormationGraph.SortOutcome.cycleDetected := Except.error.inj herr
        subst he
        exact CloudFormationGraph.outer_cycle g _ _ rfl hfold
    | ok st =>
        rw [hfold] at herr
        exact Except.noConfusion herr

set_option maxRecDepth 20000 in
/-- Witness for the amended C7 at the three-node graph of the
counterexample: the sort cannot exhaust fuel, its output is a permutation
of the node keys, and the one dependency edge's target is emitted before
its source. -/
theorem claim_C7_witness :
    CloudFormationGraph.getAllNodesSortedIds c7Graph ≠ .error .outOfFuel ∧
    (["s.C", "s.A", "s.B"] : List String).Perm (c7Graph.nodes.map Prod.fst) ∧
    [c7Edge.toId, c7Edge.fromId].Sublist ["s.C", "s.A", "s.B"] :=
  ⟨(claim_C7_amended c7Graph (by decide) (by decide)).1,
   ((claim_C7_amended c7Graph (by decide) (by decide)).2.1
     ["s.C", "s.A", "s.B"] (by decide)).1,
   ((claim_C7_amended c7Graph (by decide) (by decide)).2.1
     ["s.C", "s.A", "s.B"] (by decide)).2.1 c7Edge (by decide)⟩
